import Mathlib

/-! # Hardcoded evaluation (`src/hardcode_eval.cpp`): a shallow embedding

The evaluator reads a position through four queries (`pieces`, `king_square`,
`side_to_move`, `checkers`) and combines five components into one score.

Conventions of the embedding.

* C++ `int` / `Value` arithmetic is modelled in `Int`.  Every quantity the evaluator
  forms is a sum of at most a few hundred products of a piece count (at most 128) with
  a small constant, so for the piece values of any real `types.h` nothing comes near
  `2^31`; no wrap-around is modelled.
* `std::abs` and `std::clamp` are written out as the conditionals they stand for.
* `/` and `%` on `int` truncate towards zero: `Int.tdiv` and `Int.tmod`.
* A `Square` is used as an `int` everywhere in the evaluator and is modelled in `Int`.
* A `Bitboard` is the natural number whose binary digits are the occupancy bits.
* The loop `while (b) { sq = pop_lsb(b); ... }` is a structural recursion bounded by `b`
  iterations; `whileBits_eq_foldlM` shows the bound is never reached: the loop visits
  exactly the set bits of `b`, least first.
* A read outside a table is undefined behaviour in C++; the embedding makes it an
  explicit failure (`none`), so `evaluate_pst` and `evaluate` return `Option Int`.
-/

namespace HardCodeEval

/-! ## The parts of `types.h`, `bitboard.h` and `position.h` the evaluator uses -/

/-- Modelled from the spec: `FILE_NB` of types.h (absent from the sources); the board has
nine files, "File = square mod 9". -/
def FILE_NB : Int := 9

/-- Modelled from the spec: `RANK_NB` of types.h (absent from the sources); the board has
ten ranks. -/
def RANK_NB : Int := 10

/-- Modelled from the spec: `SQUARE_NB` of types.h (absent from the sources); the board has
90 squares and each table has 90 initialisers. -/
def SQUARE_NB : Nat := 90

/-- Modelled from the spec: `FILE_E` of types.h (absent from the sources); the central file
of the palace, the fifth of the nine files `A..I`. -/
def FILE_E : Int := 4

/-- Modelled from the spec: the enumeration `Color` of types.h (absent from the sources);
`WHITE` is Red, the first player. -/
inductive Color where
  | WHITE
  | BLACK
  deriving DecidableEq, Fintype

/-- Modelled from the spec: the enumeration `PieceType` of types.h (absent from the
sources), in the order of the initialiser of `PIECE_SQUARE_TABLES`. -/
inductive PieceType where
  | NO_PIECE_TYPE
  | ROOK
  | ADVISOR
  | CANNON
  | PAWN
  | KNIGHT
  | BISHOP
  | KING
  deriving DecidableEq, Fintype

/-- The values `pt` takes in `for (PieceType pt = ROOK; pt < PIECE_TYPE_NB; ++pt)`:
the seven piece types after the sentinel, `PIECE_TYPE_NB` being the number of slots of
`PIECE_SQUARE_TABLES`, eight. -/
def pieceTypeLoop : List PieceType :=
  [.ROOK, .ADVISOR, .CANNON, .PAWN, .KNIGHT, .BISHOP, .KING]

/-- Occupancy bits: bit `i` is set when square `i` is occupied. -/
abbrev Bitboard := Nat

/-- The constants of types.h that the evaluator reads and whose values are not in the
sources: the piece values and the two mate-sentinel bounds. -/
structure Types where
  PieceValue : PieceType → Int
  VALUE_MATE_IN_MAX_PLY : Int
  VALUE_MATED_IN_MAX_PLY : Int

/-- The read interface of `Position` (position.h, absent from the sources): exactly the
four queries the evaluator calls. -/
structure Position where
  pieces : Color → PieceType → Bitboard
  king_square : Color → Int
  side_to_move : Color
  checkers : Bitboard

/-- The occupied squares of `b`, least first, read off the binary digits of `b` starting
at square `i`.  The first argument bounds the number of digits read; `b` itself is always
enough, since halving a non-zero number makes it smaller. -/
def squaresFrom : Nat → Nat → Bitboard → List Nat
  | 0, _, _ => []
  | fuel + 1, i, b =>
    if b = 0 then []
    else if b % 2 = 1 then i :: squaresFrom fuel (i + 1) (b / 2)
    else squaresFrom fuel (i + 1) (b / 2)

/-- The squares of a bitboard in increasing order: the occupancy set it stands for. -/
def squaresOf (b : Bitboard) : List Nat :=
  squaresFrom b 0 b

/-- Modelled from the spec: `popcount` of bitboard.h (absent from the sources); the number
of occupied squares of the set. -/
def popcount (b : Bitboard) : Int :=
  ((squaresOf b).length : Int)

/-- Modelled from the spec: `lsb` of bitboard.h (absent from the sources); the least
significant set bit, that is the least occupied square (0 for the empty board, where the
C++ function may not be called). -/
def lsb (b : Bitboard) : Nat :=
  (squaresOf b).headD 0

/-- Modelled from the spec: `pop_lsb` of bitboard.h (absent from the sources); returns the
least significant set bit and clears it with `b &= b - 1`. -/
def pop_lsb (b : Bitboard) : Int × Bitboard :=
  ((lsb b : Int), b &&& (b - 1))

/-- The conditional `std::abs` stands for. -/
def std_abs (x : Int) : Int :=
  if x < 0 then -x else x

/-- The conditional `std::clamp(v, lo, hi)` stands for. -/
def std_clamp (v lo hi : Int) : Int :=
  if v < lo then lo else if hi < v then hi else v

/-! ## The piece-square tables -/

def PST_PAWN : List Int := [
  0,   0,   0,   0,   0,   0,   0,   0,   0,
  0,   0,   0,   0,   0,   0,   0,   0,   0,
  0,   0,   0,  10,  10,  10,   0,   0,   0,
  5,   5,  10,  20,  30,  20,  10,   5,   5,
  10,  10,  20,  30,  40,  30,  20,  10,  10,
  10,  10,  20,  30,  40,  30,  20,  10,  10,
  5,   5,  10,  20,  30,  20,  10,   5,   5,
  0,   0,   0,  10,  10,  10,   0,   0,   0,
  0,   0,   0,   0,   0,   0,   0,   0,   0,
  0,   0,   0,   0,   0,   0,   0,   0,   0]

def PST_ROOK : List Int := [
  10,  15,  15,  20,  20,  20,  15,  15,  10,
  10,  15,  15,  20,  20,  20,  15,  15,  10,
  10,  15,  15,  20,  20,  20,  15,  15,  10,
  15,  20,  20,  25,  25,  25,  20,  20,  15,
  15,  20,  20,  25,  30,  25,  20,  20,  15,
  15,  20,  20,  25,  30,  25,  20,  20,  15,
  15,  20,  20,  25,  25,  25,  20,  20,  15,
  10,  15,  15,  20,  20,  20,  15,  15,  10,
  10,  15,  15,  20,  20,  20,  15,  15,  10,
  10,  15,  15,  20,  20,  20,  15,  15,  10]

def PST_KNIGHT : List Int := [
  0,   5,   5,  10,  10,  10,   5,   5,   0,
  5,  10,  15,  20,  20,  20,  15,  10,   5,
  5,  15,  20,  25,  25,  25,  20,  15,   5,
  10,  20,  25,  30,  35,  30,  25,  20,  10,
  10,  20,  25,  35,  40,  35,  25,  20,  10,
  10,  20,  25,  35,  40,  35,  25,  20,  10,
  10,  20,  25,  30,  35,  30,  25,  20,  10,
  5,  15,  20,  25,  25,  25,  20,  15,   5,
  5,  10,  15,  20,  20,  20,  15,  10,   5,
  0,   5,   5,  10,  10,  10,   5,   5,   0]

def PST_CANNON : List Int := [
  10,  10,  10,  15,  15,  15,  10,  10,  10,
  10,  15,  15,  20,  20,  20,  15,  15,  10,
  10,  15,  15,  20,  20,  20,  15,  15,  10,
  15,  20,  20,  25,  30,  25,  20,  20,  15,
  15,  20,  25,  30,  35,  30,  25,  20,  15,
  15,  20,  25,  30,  35,  30,  25,  20,  15,
  15,  20,  20,  25,  30,  25,  20,  20,  15,
  10,  15,  15,  20,  20,  20,  15,  15,  10,
  10,  15,  15,  20,  20,  20,  15,  15,  10,
  10,  10,  10,  15,  15,  15,  10,  10,  10]

def PST_ADVISOR : List Int := [
  0,   0,   0,   0,   0,   0,   0,   0,   0,
  0,   0,   0,   0,   0,   0,   0,   0,   0,
  0,   0,   0,   0,   0,   0,   0,   0,   0,
  0,   0,   0,   0,   0,   0,   0,   0,   0,
  0,   0,   0,   0,   0,   0,   0,   0,   0,
  0,   0,   0,   0,   0,   0,   0,   0,   0,
  0,   0,   0,   0,   0,   0,   0,   0,   0,
  0,   0,   0,  10,   0,  10,   0,   0,   0,
  0,   0,   0,   0,  20,   0,   0,   0,   0,
  0,   0,   0,  10,   0,  10,   0,   0,   0]

def PST_BISHOP : List Int := [
  0,   0,   0,   0,   0,   0,   0,   0,   0,
  0,   0,   0,   0,   0,   0,   0,   0,   0,
  0,   0,   0,   0,   0,   0,   0,   0,   0,
  0,   0,   0,   0,   0,   0,   0,   0,   0,
  0,   0,   0,   0,   0,   0,   0,   0,   0,
  0,   0,   0,   0,   0,   0,   0,   0,   0,
  0,   0,   0,   0,   0,   0,   0,   0,   0,
  0,   0,  10,   0,   0,   0,  10,   0,   0,
  0,   0,   0,   0,   0,   0,   0,   0,   0,
  0,   0,  10,   0,   0,   0,  10,   0,   0]

def PST_KING : List Int := [
  0,   0,   0,  10,  20,  10,   0,   0,   0,
  0,   0,   0,  20,  30,  20,   0,   0,   0,
  0,   0,   0,  10,  20,  10,   0,   0,   0,
  0,   0,   0,   0,   0,   0,   0,   0,   0,
  0,   0,   0,   0,   0,   0,   0,   0,   0,
  0,   0,   0,   0,   0,   0,   0,   0,   0,
  0,   0,   0,   0,   0,   0,   0,   0,   0,
  0,   0,   0,  10,  20,  10,   0,   0,   0,
  0,   0,   0,  20,  30,  20,   0,   0,   0,
  0,   0,   0,  10,  20,  10,   0,   0,   0]

/-- The array of table pointers; `none` is `nullptr`. -/
def PIECE_SQUARE_TABLES : PieceType → Option (List Int)
  | .NO_PIECE_TYPE => none
  | .ROOK => some PST_ROOK
  | .ADVISOR => some PST_ADVISOR
  | .CANNON => some PST_CANNON
  | .PAWN => some PST_PAWN
  | .KNIGHT => some PST_KNIGHT
  | .BISHOP => some PST_BISHOP
  | .KING => some PST_KING

/-- The read `pst_table[i]` of a table of `SQUARE_NB` entries: defined for
`0 ≤ i < SQUARE_NB` only. -/
def tableAt (pst_table : List Int) (i : Int) : Option Int :=
  if 0 ≤ i ∧ i < (SQUARE_NB : Int) then pst_table[i.toNat]? else none

/-! ## The helper and the five components -/

def mirror_square (sq : Int) : Int :=
  let file := Int.tmod sq FILE_NB
  let rank := Int.tdiv sq FILE_NB
  let mirrored_rank := (RANK_NB - 1) - rank
  mirrored_rank * FILE_NB + file

def evaluate_material (T : Types) (pos : Position) : Int :=
  pieceTypeLoop.foldl
    (fun material pt =>
      let red_count := popcount (pos.pieces .WHITE pt)
      let material := material + red_count * T.PieceValue pt
      let black_count := popcount (pos.pieces .BLACK pt)
      material - black_count * T.PieceValue pt)
    0

/-- The loop `while (b) { Square sq = pop_lsb(b); body }` run for at most `fuel`
iterations; `body` updates the running score from `sq` and fails on a read outside the
table.  Running out of iterations with squares left is a failure too. -/
def whileBitsFuel (body : Int → Int → Option Int) : Nat → Bitboard → Int → Option Int
  | 0, b, pst_score => if b = 0 then some pst_score else none
  | fuel + 1, b, pst_score =>
    if b = 0 then some pst_score
    else
      match body (pop_lsb b).1 pst_score with
      | none => none
      | some pst_score => whileBitsFuel body fuel (pop_lsb b).2 pst_score

/-- The loop `while (b) { Square sq = pop_lsb(b); body }`.  Each iteration replaces `b` by
`b & (b - 1)`, which is smaller, so `b` iterations are never used up
(`whileBits_eq_foldlM`). -/
def whileBits (body : Int → Int → Option Int) (b : Bitboard) (pst_score : Int) :
    Option Int :=
  whileBitsFuel body b b pst_score

/-- The body of the loop over the piece types in `evaluate_pst`: the types without a
table are skipped, the others run the loop over Red's squares and then the loop over
Black's squares. -/
def evaluate_pst_body (pos : Position) (pst_score : Int) (pt : PieceType) : Option Int :=
  match PIECE_SQUARE_TABLES pt with
  | none => some pst_score
  | some pst_table =>
    match whileBits
        (fun sq pst_score => (tableAt pst_table sq).map (fun v => pst_score + v))
        (pos.pieces .WHITE pt) pst_score with
    | none => none
    | some pst_score =>
      whileBits
        (fun sq pst_score =>
          let mirrored_sq := mirror_square sq
          (tableAt pst_table mirrored_sq).map (fun v => pst_score - v))
        (pos.pieces .BLACK pt) pst_score

def evaluate_pst (pos : Position) : Option Int :=
  pieceTypeLoop.foldlM (evaluate_pst_body pos) 0

def mobility_per_piece : PieceType → Int
  | .ROOK => 14
  | .KNIGHT => 8
  | .CANNON => 10
  | .PAWN => 2
  | .ADVISOR => 4
  | .BISHOP => 4
  | .KING => 4
  | _ => 0

def MOBILITY_FACTOR : Int := 3

def evaluate_mobility (pos : Position) : Int :=
  let mobility := pieceTypeLoop.foldl
    (fun mobility pt =>
      let mobility := mobility + popcount (pos.pieces .WHITE pt) * mobility_per_piece pt
      mobility - popcount (pos.pieces .BLACK pt) * mobility_per_piece pt)
    0
  mobility * MOBILITY_FACTOR

def evaluate_king_safety (pos : Position) : Int :=
  let safety : Int := 0
  let red_king := pos.king_square .WHITE
  let black_king := pos.king_square .BLACK
  let red_file := Int.tmod red_king FILE_NB
  let red_rank := Int.tdiv red_king FILE_NB
  let red_file_bonus := 2 - std_abs (red_file - FILE_E)
  let red_rank_bonus := 1 - std_abs (red_rank - 8)
  let red_safety := (red_file_bonus + red_rank_bonus) * 10
  let safety := safety + red_safety
  let red_advisors := pos.pieces .WHITE .ADVISOR
  let safety := if popcount red_advisors ≥ 1 then safety + 15 else safety
  let black_file := Int.tmod black_king FILE_NB
  let black_rank := Int.tdiv black_king FILE_NB
  let black_file_bonus := 2 - std_abs (black_file - FILE_E)
  let black_rank_bonus := 1 - std_abs (black_rank - 1)
  let black_safety := (black_file_bonus + black_rank_bonus) * 10
  let safety := safety - black_safety
  let black_advisors := pos.pieces .BLACK .ADVISOR
  let safety := if popcount black_advisors ≥ 1 then safety - 15 else safety
  safety

def evaluate_tactics (pos : Position) : Int :=
  let tactics : Int := 0
  let checkers_bb := pos.checkers
  if checkers_bb ≠ 0 then
    if pos.side_to_move = .WHITE then tactics - 50 else tactics + 50
  else tactics

/-- The score before the side-to-move adjustment: the sum of the five components, from
Red's point of view. -/
def red_total (T : Types) (pos : Position) : Option Int :=
  (evaluate_pst pos).map (fun pst =>
    0 + evaluate_material T pos + pst + evaluate_mobility pos
      + evaluate_king_safety pos + evaluate_tactics pos)

def evaluate (T : Types) (pos : Position) : Option Int :=
  (red_total T pos).map (fun score =>
    let score := if pos.side_to_move = .BLACK then -score else score
    std_clamp score (T.VALUE_MATED_IN_MAX_PLY + 1) (T.VALUE_MATE_IN_MAX_PLY - 1))

/-! ## Notions used to state the properties -/

/-- Entry `i` of the table of piece type `pt`; 0 where the type has no table or the
table no such entry. -/
def PST (pt : PieceType) (i : Int) : Int :=
  match PIECE_SQUARE_TABLES pt with
  | none => 0
  | some pst_table => (tableAt pst_table i).getD 0

/-- Every occupied square of every occupancy set lies in `[0, 90)`. -/
@[reducible] def Position.OnBoard (pos : Position) : Prop :=
  ∀ (c : Color) (pt : PieceType), pos.pieces c pt < 2 ^ SQUARE_NB

/-- Both king squares lie in `[0, 90)`. -/
@[reducible] def Position.KingsOnBoard (pos : Position) : Prop :=
  ∀ c : Color, 0 ≤ pos.king_square c ∧ pos.king_square c < (SQUARE_NB : Int)

/-- The contribution of piece type `pt` to the positional score: the table values at
Red's squares minus the table values at the mirror images of Black's squares. -/
def pst_term (pos : Position) (pt : PieceType) : Int :=
  ((squaresOf (pos.pieces .WHITE pt)).map (fun (sq : Nat) => PST pt (sq : Int))).sum
    - ((squaresOf (pos.pieces .BLACK pt)).map (fun (sq : Nat) => PST pt (mirror_square (sq : Int)))).sum

/-- The sum of the five components, from Red's point of view, when the positional
component is `pst`. -/
def total_of (T : Types) (pos : Position) (pst : Int) : Int :=
  evaluate_material T pos + pst + evaluate_mobility pos + evaluate_king_safety pos
    + evaluate_tactics pos

/-- The total seen from the side to move: kept for Red, negated for Black. -/
def mover_total (T : Types) (pos : Position) (pst : Int) : Int :=
  if pos.side_to_move = .WHITE then total_of T pos pst else -(total_of T pos pst)

/-- The number of pieces of a side and type: the size of the occupancy set. -/
def piece_count (pos : Position) (c : Color) (pt : PieceType) : Int :=
  ((squaresOf (pos.pieces c pt)).length : Int)

/-! ## Sample inputs -/

/-- Sample values for the constants of types.h. -/
def sample_types : Types :=
  { PieceValue := fun pt =>
      match pt with
      | .ROOK => 1300
      | .ADVISOR => 220
      | .CANNON => 770
      | .PAWN => 170
      | .KNIGHT => 720
      | .BISHOP => 220
      | _ => 0
    VALUE_MATE_IN_MAX_PLY := 31754
    VALUE_MATED_IN_MAX_PLY := -31754 }

/-- A small position: Red has two rooks, two advisors and the king on its home rank,
Black two rooks, two pawns and the king; Red is to move and is not in check. -/
def sample_position : Position :=
  { pieces := fun c pt =>
      match c, pt with
      | .WHITE, .ROOK => 2 ^ 81 + 2 ^ 89
      | .WHITE, .ADVISOR => 2 ^ 84 + 2 ^ 86
      | .WHITE, .KING => 2 ^ 85
      | .BLACK, .ROOK => 2 ^ 0 + 2 ^ 8
      | .BLACK, .PAWN => 2 ^ 27 + 2 ^ 29
      | .BLACK, .KING => 2 ^ 4
      | _, _ => 0
    king_square := fun c =>
      match c with
      | .WHITE => 85
      | .BLACK => 4
    side_to_move := .WHITE
    checkers := 0 }

/-- The sample position with Red's rooks moved to the middle of the board: the same
piece counts on other squares. -/
def sample_position_moved : Position :=
  { sample_position with
    pieces := fun c pt =>
      match c, pt with
      | .WHITE, .ROOK => 2 ^ 40 + 2 ^ 49
      | c, pt => sample_position.pieces c pt }

/-- Modelled from the spec: `operator~` on `Color` of types.h (absent from the sources);
the other side. -/
def Color.opposite : Color → Color
  | .WHITE => .BLACK
  | .BLACK => .WHITE

/-- Modelled from the spec: by the contract of `checkers`, the set is non-empty exactly
when the side to move is in check; so side `c` is in check when it is to move and
`checkers` is non-empty. -/
@[reducible] def Position.in_check (pos : Position) (c : Color) : Prop :=
  pos.checkers ≠ 0 ∧ pos.side_to_move = c

/-- The sample position with one Red advisor instead of two. -/
def sample_position_one_advisor : Position :=
  { sample_position with
    pieces := fun c pt =>
      match c, pt with
      | .WHITE, .ADVISOR => 2 ^ 84
      | c, pt => sample_position.pieces c pt }

/-- The sample position with Red in check from the rook on square 8. -/
def sample_position_in_check : Position :=
  { sample_position with checkers := 2 ^ 8 }

/-- The sample position with Red in check from both rooks. -/
def sample_position_double_check : Position :=
  { sample_position with checkers := 2 ^ 0 + 2 ^ 8 }

/-- The position `flipped` is `pos` with the whole board mirrored: the pieces of each side
and type of `pos` stand, for the other side, on the mirror images of their squares; the
king squares are swapped and mirrored; the other side is to move; and `checkers` is
non-empty in the one exactly when it is in the other. -/
@[reducible] def IsColourFlip (pos flipped : Position) : Prop :=
  (∀ (c : Color) (pt : PieceType),
    List.Perm
      ((squaresOf (flipped.pieces c.opposite pt)).map (fun (sq : Nat) => (sq : Int)))
      ((squaresOf (pos.pieces c pt)).map (fun (sq : Nat) => mirror_square (sq : Int))))
  ∧ (∀ c : Color, flipped.king_square c.opposite = mirror_square (pos.king_square c))
  ∧ flipped.side_to_move = pos.side_to_move.opposite
  ∧ (flipped.checkers ≠ 0 ↔ pos.checkers ≠ 0)

/-- The sample position with the board mirrored: Black has the rooks, advisors and king
on its home rank, Red the rooks, pawns and king; Black is to move. -/
def sample_position_flipped : Position :=
  { pieces := fun c pt =>
      match c, pt with
      | .BLACK, .ROOK => 2 ^ 0 + 2 ^ 8
      | .BLACK, .ADVISOR => 2 ^ 3 + 2 ^ 5
      | .BLACK, .KING => 2 ^ 4
      | .WHITE, .ROOK => 2 ^ 81 + 2 ^ 89
      | .WHITE, .PAWN => 2 ^ 54 + 2 ^ 56
      | .WHITE, .KING => 2 ^ 85
      | _, _ => 0
    king_square := fun c =>
      match c with
      | .WHITE => 85
      | .BLACK => 4
    side_to_move := .BLACK
    checkers := 0 }

/-- The bitboard holding the mirror images of the squares of `b`. -/
def mirror_bitboard (b : Bitboard) : Bitboard :=
  (squaresOf b).foldl (fun (acc : Nat) (sq : Nat) => acc ||| 2 ^ (mirror_square (sq : Int)).toNat) 0

/-- The position with the whole board mirrored: every piece goes to the other side on the
mirrored square, the kings likewise, and the other side is to move. -/
def mirror_position (pos : Position) : Position :=
  { pieces := fun c pt => mirror_bitboard (pos.pieces c.opposite pt)
    king_square := fun c => mirror_square (pos.king_square c.opposite)
    side_to_move := pos.side_to_move.opposite
    checkers := mirror_bitboard pos.checkers }

/-- The mirrored sample position with Black in check from the rook on square 81. -/
def sample_position_flipped_in_check : Position :=
  { sample_position_flipped with checkers := 2 ^ 81 }

/-- The local `red_safety` of `evaluate_king_safety`: the placement part of Red's
king-safety bonus. -/
def red_safety (pos : Position) : Int :=
  let red_king := pos.king_square .WHITE
  let red_file := Int.tmod red_king FILE_NB
  let red_rank := Int.tdiv red_king FILE_NB
  let red_file_bonus := 2 - std_abs (red_file - FILE_E)
  let red_rank_bonus := 1 - std_abs (red_rank - 8)
  (red_file_bonus + red_rank_bonus) * 10

/-- The local `black_safety` of `evaluate_king_safety`: the placement part of Black's
king-safety bonus. -/
def black_safety (pos : Position) : Int :=
  let black_king := pos.king_square .BLACK
  let black_file := Int.tmod black_king FILE_NB
  let black_rank := Int.tdiv black_king FILE_NB
  let black_file_bonus := 2 - std_abs (black_file - FILE_E)
  let black_rank_bonus := 1 - std_abs (black_rank - 1)
  (black_file_bonus + black_rank_bonus) * 10

/-- The position with the other side to move and everything else unchanged. -/
def swap_side_to_move (pos : Position) : Position :=
  { pos with side_to_move := pos.side_to_move.opposite }

/-- The sample position in check, seen through another position object: other bits in
`checkers` and an occupancy in the unused slot of the no-piece-type. -/
def sample_position_other_view : Position :=
  { sample_position_double_check with
    pieces := fun c pt =>
      match c, pt with
      | .WHITE, .NO_PIECE_TYPE => 2 ^ 81 + 2 ^ 84 + 2 ^ 85 + 2 ^ 86 + 2 ^ 89
      | c, pt => sample_position.pieces c pt }

/-- The body of the loop over the piece types of the positional evaluator when the
squares of the occupancy set of side `c` and type `pt` are visited in the order
`order c pt` instead of the order of `pop_lsb`. -/
def evaluate_pst_body_in_order (order : Color → PieceType → List Nat) (pst_score : Int)
    (pt : PieceType) : Option Int :=
  match PIECE_SQUARE_TABLES pt with
  | none => some pst_score
  | some pst_table =>
    match (order .WHITE pt).foldlM
        (fun (pst_score : Int) (sq : Nat) =>
          (tableAt pst_table (sq : Int)).map (fun v => pst_score + v))
        pst_score with
    | none => none
    | some pst_score =>
      (order .BLACK pt).foldlM
        (fun (pst_score : Int) (sq : Nat) =>
          (tableAt pst_table (mirror_square (sq : Int))).map (fun v => pst_score - v))
        pst_score

/-- The positional evaluator with the squares visited in the order `order`. -/
def evaluate_pst_in_order (order : Color → PieceType → List Nat) : Option Int :=
  pieceTypeLoop.foldlM (evaluate_pst_body_in_order order) 0

/-- The position with the piece of side `c` and type `pt` on square `sq` taken off the
board: the bit of `sq` is flipped in that occupancy set. -/
def remove_piece (pos : Position) (c : Color) (pt : PieceType) (sq : Nat) : Position :=
  { pos with
    pieces := fun c2 pt2 =>
      if c2 = c ∧ pt2 = pt then pos.pieces c pt ^^^ 2 ^ sq else pos.pieces c2 pt2 }

/-- The sample position without Red's advisors. -/
def sample_position_no_advisor : Position :=
  { sample_position with
    pieces := fun c pt =>
      match c, pt with
      | .WHITE, .ADVISOR => 0
      | c, pt => sample_position.pieces c pt }

/-- The sample position with one Red advisor, on the centre of the palace (square 76). -/
def sample_position_advisor_centre : Position :=
  { sample_position with
    pieces := fun c pt =>
      match c, pt with
      | .WHITE, .ADVISOR => 2 ^ 76
      | c, pt => sample_position.pieces c pt }

/-- The square with the same rank on the file reflected across the central file:
file `f` becomes `8 - f`. -/
def reflect_file (sq : Int) : Int :=
  (sq / 9) * 9 + (8 - sq % 9)

/-- The position `reflected` is `pos` with every piece and both kings reflected across
the central file: same side, same type, same rank, file `8 - f`; the same side is to
move and `checkers` is non-empty in the one exactly when it is in the other. -/
@[reducible] def IsFileReflection (pos reflected : Position) : Prop :=
  (∀ (c : Color) (pt : PieceType),
    List.Perm
      ((squaresOf (reflected.pieces c pt)).map (fun (sq : Nat) => (sq : Int)))
      ((squaresOf (pos.pieces c pt)).map (fun (sq : Nat) => reflect_file (sq : Int))))
  ∧ (∀ c : Color, reflected.king_square c = reflect_file (pos.king_square c))
  ∧ reflected.side_to_move = pos.side_to_move
  ∧ (reflected.checkers ≠ 0 ↔ pos.checkers ≠ 0)

/-- The sample position with one Red advisor, reflected across the central file. -/
def sample_position_reflected : Position :=
  { pieces := fun c pt =>
      match c, pt with
      | .WHITE, .ROOK => 2 ^ 81 + 2 ^ 89
      | .WHITE, .ADVISOR => 2 ^ 86
      | .WHITE, .KING => 2 ^ 85
      | .BLACK, .ROOK => 2 ^ 0 + 2 ^ 8
      | .BLACK, .PAWN => 2 ^ 33 + 2 ^ 35
      | .BLACK, .KING => 2 ^ 4
      | _, _ => 0
    king_square := fun c =>
      match c with
      | .WHITE => 85
      | .BLACK => 4
    side_to_move := .WHITE
    checkers := 0 }

/-- The bitboard holding the file reflections of the squares of `b`. -/
def reflect_bitboard (b : Bitboard) : Bitboard :=
  (squaresOf b).foldl
    (fun (acc : Nat) (sq : Nat) => acc ||| 2 ^ (reflect_file (sq : Int)).toNat) 0

/-- The position with every piece and both kings reflected across the central file. -/
def reflect_position (pos : Position) : Position :=
  { pieces := fun c pt => reflect_bitboard (pos.pieces c pt)
    king_square := fun c => reflect_file (pos.king_square c)
    side_to_move := pos.side_to_move
    checkers := reflect_bitboard pos.checkers }

/-- Sample constants with a narrow band between the mate bounds, so that ordinary
positions reach the clamp. -/
def sample_types_narrow : Types :=
  { sample_types with
    VALUE_MATE_IN_MAX_PLY := 100
    VALUE_MATED_IN_MAX_PLY := -100 }

/-! ## Bitboards: the squares of a board and the `pop_lsb` loop -/

theorem squaresFrom_fuel (f1 : Nat) : ∀ (f2 i b : Nat), b ≤ f1 → b ≤ f2 →
    squaresFrom f1 i b = squaresFrom f2 i b := by
  induction f1 with
  | zero =>
    intro f2 i b h1 _
    have hb : b = 0 := by omega
    subst hb
    cases f2 <;> simp [squaresFrom]
  | succ n ih =>
    intro f2 i b h1 h2
    cases f2 with
    | zero =>
      have hb : b = 0 := by omega
      subst hb
      simp [squaresFrom]
    | succ m =>
      by_cases hb : b = 0
      · simp [squaresFrom, hb]
      · have h3 : b / 2 ≤ n := by omega
        have h4 : b / 2 ≤ m := by omega
        simp only [squaresFrom, hb, if_false]
        rw [ih m (i + 1) (b / 2) h3 h4]

theorem squaresFrom_shift (f : Nat) : ∀ (i b : Nat),
    squaresFrom f i b = (squaresFrom f 0 b).map (fun sq => sq + i) := by
  induction f with
  | zero => intro i b; simp [squaresFrom]
  | succ n ih =>
    intro i b
    by_cases hb : b = 0
    · simp [squaresFrom, hb]
    · simp only [squaresFrom, hb, if_false]
      rw [ih (i + 1) (b / 2), ih (0 + 1) (b / 2)]
      by_cases hodd : b % 2 = 1
      · simp [hodd, List.map_map, Function.comp_def, Nat.add_assoc, Nat.add_comm 1 i]
      · simp [hodd, List.map_map, Function.comp_def, Nat.add_assoc, Nat.add_comm 1 i]

theorem squaresOf_zero : squaresOf 0 = [] := by
  simp [squaresOf, squaresFrom]

theorem squaresOf_unfold (b : Nat) (hb : b ≠ 0) :
    squaresOf b =
      if b % 2 = 1 then 0 :: (squaresOf (b / 2)).map (fun sq => sq + 1)
      else (squaresOf (b / 2)).map (fun sq => sq + 1) := by
  obtain ⟨n, rfl⟩ : ∃ n, b = n + 1 := ⟨b - 1, by omega⟩
  have h1 : squaresFrom n 1 ((n + 1) / 2) = (squaresOf ((n + 1) / 2)).map (fun sq => sq + 1) := by
    rw [squaresFrom_shift, squaresOf]
    rw [squaresFrom_fuel n ((n + 1) / 2) 0 ((n + 1) / 2) (by omega) (Nat.le_refl _)]
  simp only [squaresOf, squaresFrom, hb, if_false, Nat.zero_add]
  rw [h1]
  simp only [squaresOf]


theorem land_pred_odd (n : Nat) : (2 * n + 1) &&& (2 * n + 1 - 1) = 2 * n := by
  apply Nat.eq_of_testBit_eq
  intro j
  cases j with
  | zero => simp [Nat.testBit_zero]
  | succ k =>
    rw [Nat.testBit_and]
    simp only [Nat.testBit_succ]
    have h1 : (2 * n + 1) / 2 = n := by omega
    have h2 : (2 * n + 1 - 1) / 2 = n := by omega
    have h3 : 2 * n / 2 = n := by omega
    rw [h1, h2, h3, Bool.and_self]

theorem land_pred_even (n : Nat) :
    (2 * n) &&& (2 * n - 1) = 2 * (n &&& (n - 1)) := by
  apply Nat.eq_of_testBit_eq
  intro j
  cases j with
  | zero => simp [Nat.testBit_zero]
  | succ k =>
    rw [Nat.testBit_and]
    simp only [Nat.testBit_succ]
    have h1 : 2 * n / 2 = n := by omega
    have h2 : (2 * n - 1) / 2 = n - 1 := by omega
    have h3 : 2 * (n &&& (n - 1)) / 2 = n &&& (n - 1) := by omega
    rw [h1, h2, h3, Nat.testBit_and]

theorem squaresOf_ne_nil : ∀ (b : Nat), b ≠ 0 → squaresOf b ≠ [] := by
  intro b
  induction b using Nat.strong_induction_on with
  | _ b ih =>
    intro hb
    rw [squaresOf_unfold b hb]
    by_cases hodd : b % 2 = 1
    · simp [hodd]
    · have h2 : b / 2 ≠ 0 := by omega
      have := ih (b / 2) (by omega) h2
      simp [hodd, this]

theorem squaresOf_land_pred : ∀ (b : Nat), b ≠ 0 →
    squaresOf (b &&& (b - 1)) = (squaresOf b).tail := by
  intro b
  induction b using Nat.strong_induction_on with
  | _ b ih =>
    intro hb
    by_cases hodd : b % 2 = 1
    · obtain ⟨n, rfl⟩ : ∃ n, b = 2 * n + 1 := ⟨b / 2, by omega⟩
      rw [land_pred_odd, squaresOf_unfold (2 * n + 1) hb]
      have h1 : (2 * n + 1) / 2 = n := by omega
      simp only [hodd, if_true, List.tail_cons, h1]
      by_cases hn : n = 0
      · simp [hn, squaresOf_zero]
      · rw [squaresOf_unfold (2 * n) (by omega)]
        have h2 : 2 * n / 2 = n := by omega
        have h3 : ¬ (2 * n % 2 = 1) := by omega
        simp only [h3, if_false, h2]
    · obtain ⟨n, rfl⟩ : ∃ n, b = 2 * n := ⟨b / 2, by omega⟩
      have hn : n ≠ 0 := by omega
      rw [land_pred_even n, squaresOf_unfold (2 * n) hb]
      have h2 : 2 * n / 2 = n := by omega
      simp only [hodd, if_false, h2]
      have hrec := ih n (by omega) hn
      by_cases hz : n &&& (n - 1) = 0
      · rw [hz] at hrec
        rw [hz, Nat.mul_zero, squaresOf_zero]
        rw [squaresOf_zero] at hrec
        rw [← List.map_tail, ← hrec, List.map_nil]
      · rw [squaresOf_unfold (2 * (n &&& (n - 1))) (by omega)]
        have h4 : 2 * (n &&& (n - 1)) / 2 = n &&& (n - 1) := by omega
        have h5 : ¬ (2 * (n &&& (n - 1)) % 2 = 1) := by omega
        simp only [h5, if_false, h4]
        rw [hrec, List.map_tail]

theorem squaresOf_pop (b : Nat) (hb : b ≠ 0) :
    squaresOf b = lsb b :: squaresOf (pop_lsb b).2 := by
  have hne := squaresOf_ne_nil b hb
  show squaresOf b = (squaresOf b).headD 0 :: squaresOf (b &&& (b - 1))
  rw [squaresOf_land_pred b hb]
  cases h : squaresOf b with
  | nil => exact absurd h hne
  | cons a l => simp

theorem whileBitsFuel_eq_foldlM (body : Int → Int → Option Int) (fuel : Nat) :
    ∀ (b : Nat) (s : Int), b ≤ fuel →
      whileBitsFuel body fuel b s
        = (squaresOf b).foldlM (fun (pst_score : Int) (sq : Nat) => body (sq : Int) pst_score) s := by
  induction fuel with
  | zero =>
    intro b s hb
    have : b = 0 := by omega
    subst this
    simp [whileBitsFuel, squaresOf_zero]
  | succ n ih =>
    intro b s hb
    by_cases hz : b = 0
    · subst hz
      simp [whileBitsFuel, squaresOf_zero]
    · have hle : (pop_lsb b).2 ≤ n := by
        show b &&& (b - 1) ≤ n
        have := @Nat.and_le_right b (b - 1)
        omega
      rw [squaresOf_pop b hz]
      simp only [whileBitsFuel, hz, if_false, List.foldlM_cons]
      show _ = Option.bind _ _
      cases hbody : body (pop_lsb b).1 s with
      | none =>
        have : body (↑(lsb b)) s = none := hbody
        simp [this]
      | some v =>
        have : body (↑(lsb b)) s = some v := hbody
        simp only [this, Option.some_bind]
        exact ih _ v hle

theorem whileBits_eq_foldlM (body : Int → Int → Option Int) (b : Nat) (s : Int) :
    whileBits body b s
      = (squaresOf b).foldlM (fun (pst_score : Int) (sq : Nat) => body (sq : Int) pst_score) s :=
  whileBitsFuel_eq_foldlM body b b s (Nat.le_refl b)

theorem squaresOf_lt : ∀ (n b : Nat), b < 2 ^ n → ∀ sq ∈ squaresOf b, sq < n := by
  intro n
  induction n with
  | zero =>
    intro b hb sq hsq
    have : b = 0 := by simpa using hb
    subst this
    simp [squaresOf_zero] at hsq
  | succ m ih =>
    intro b hb sq hsq
    by_cases hz : b = 0
    · subst hz; simp [squaresOf_zero] at hsq
    · have hhalf : b / 2 < 2 ^ m := by
        rw [Nat.pow_succ] at hb
        omega
      rw [squaresOf_unfold b hz] at hsq
      by_cases hodd : b % 2 = 1
      · simp only [hodd, if_true, List.mem_cons, List.mem_map] at hsq
        rcases hsq with h0 | ⟨a, ha, rfl⟩
        · omega
        · have := ih (b / 2) hhalf a ha
          omega
      · simp only [hodd, if_false, List.mem_map] at hsq
        obtain ⟨a, ha, rfl⟩ := hsq
        have := ih (b / 2) hhalf a ha
        omega

/-! ## The mirroring helper -/

theorem mirror_square_eq (sq : Int) (h0 : 0 ≤ sq) :
    mirror_square sq = (9 - sq / 9) * 9 + sq % 9 := by
  simp only [mirror_square, FILE_NB, RANK_NB]
  rw [Int.tdiv_eq_ediv h0 (by decide), Int.tmod_eq_emod h0 (by decide)]
  omega

theorem mirror_square_range (sq : Int) (h0 : 0 ≤ sq) (h1 : sq < 90) :
    0 ≤ mirror_square sq ∧ mirror_square sq < 90 := by
  rw [mirror_square_eq sq h0]
  omega

theorem mirror_square_mirror_square (sq : Int) (h0 : 0 ≤ sq) (h1 : sq < 90) :
    mirror_square (mirror_square sq) = sq := by
  have hr := mirror_square_range sq h0 h1
  rw [mirror_square_eq (mirror_square sq) hr.1, mirror_square_eq sq h0]
  omega

/-! ## The positional evaluator in closed form -/

theorem tableAt_eq_some (pst_table : List Int) (hlen : pst_table.length = 90) (i : Int)
    (h0 : 0 ≤ i) (h1 : i < 90) :
    tableAt pst_table i = some ((tableAt pst_table i).getD 0) := by
  have hlt : i.toNat < pst_table.length := by omega
  simp only [tableAt, SQUARE_NB]
  rw [if_pos ⟨h0, by exact_mod_cast h1⟩]
  rw [List.getElem?_eq_getElem hlt]
  rfl

theorem PIECE_SQUARE_TABLES_length (pt : PieceType) (pst_table : List Int)
    (h : PIECE_SQUARE_TABLES pt = some pst_table) : pst_table.length = 90 := by
  cases pt <;> simp [PIECE_SQUARE_TABLES] at h <;> subst h <;> rfl

theorem PIECE_SQUARE_TABLES_loop (pt : PieceType) (h : pt ∈ pieceTypeLoop) :
    ∃ pst_table, PIECE_SQUARE_TABLES pt = some pst_table := by
  cases pt <;> simp [pieceTypeLoop] at h <;> exact ⟨_, rfl⟩

theorem foldlM_add (f : Nat → Option Int) (g : Nat → Int) :
    ∀ (l : List Nat) (s : Int), (∀ sq ∈ l, f sq = some (g sq)) →
      l.foldlM (fun (acc : Int) (sq : Nat) => (f sq).map (fun v => acc + v)) s
        = some (s + (l.map g).sum) := by
  intro l
  induction l with
  | nil => intro s _; simp
  | cons a l ih =>
    intro s h
    have ha : f a = some (g a) := h a (List.mem_cons_self a l)
    have hl : ∀ sq ∈ l, f sq = some (g sq) := fun sq hsq => h sq (List.mem_cons_of_mem a hsq)
    rw [List.foldlM_cons, ha]
    show l.foldlM _ (s + g a) = _
    rw [ih (s + g a) hl, List.map_cons, List.sum_cons]
    congr 1
    omega

theorem foldlM_sub (f : Nat → Option Int) (g : Nat → Int) :
    ∀ (l : List Nat) (s : Int), (∀ sq ∈ l, f sq = some (g sq)) →
      l.foldlM (fun (acc : Int) (sq : Nat) => (f sq).map (fun v => acc - v)) s
        = some (s - (l.map g).sum) := by
  intro l
  induction l with
  | nil => intro s _; simp
  | cons a l ih =>
    intro s h
    have ha : f a = some (g a) := h a (List.mem_cons_self a l)
    have hl : ∀ sq ∈ l, f sq = some (g sq) := fun sq hsq => h sq (List.mem_cons_of_mem a hsq)
    rw [List.foldlM_cons, ha]
    show l.foldlM _ (s - g a) = _
    rw [ih (s - g a) hl, List.map_cons, List.sum_cons]
    congr 1
    omega

theorem evaluate_pst_body_eq (pos : Position) (hpos : pos.OnBoard) (pt : PieceType)
    (hpt : pt ∈ pieceTypeLoop) (pst_score : Int) :
    evaluate_pst_body pos pst_score pt = some (pst_score + pst_term pos pt) := by
  obtain ⟨t, ht⟩ := PIECE_SQUARE_TABLES_loop pt hpt
  have hlen := PIECE_SQUARE_TABLES_length pt t ht
  have hPST : ∀ i, PST pt i = (tableAt t i).getD 0 := by
    intro i; simp [PST, ht]
  have hred : ∀ sq ∈ squaresOf (pos.pieces .WHITE pt),
      tableAt t (sq : Int) = some (PST pt (sq : Int)) := by
    intro sq hsq
    have hlt : sq < 90 := squaresOf_lt 90 _ (hpos .WHITE pt) sq hsq
    rw [hPST]
    exact tableAt_eq_some t hlen sq (by omega) (by omega)
  have hblack : ∀ sq ∈ squaresOf (pos.pieces .BLACK pt),
      tableAt t (mirror_square (sq : Int)) = some (PST pt (mirror_square (sq : Int))) := by
    intro sq hsq
    have hlt : sq < 90 := squaresOf_lt 90 _ (hpos .BLACK pt) sq hsq
    have hr := mirror_square_range (sq : Int) (by omega) (by omega)
    rw [hPST]
    exact tableAt_eq_some t hlen _ hr.1 hr.2
  simp only [evaluate_pst_body, ht, whileBits_eq_foldlM]
  rw [foldlM_add (fun (sq : Nat) => tableAt t (sq : Int)) (fun (sq : Nat) => PST pt (sq : Int)) _ _ hred]
  simp only []
  rw [foldlM_sub (fun (sq : Nat) => tableAt t (mirror_square (sq : Int)))
    (fun (sq : Nat) => PST pt (mirror_square (sq : Int))) _ _ hblack]
  simp only [pst_term]
  congr 1
  omega

theorem foldlM_steps (body : Int → PieceType → Option Int) (d : PieceType → Int) :
    ∀ (l : List PieceType) (s : Int), (∀ pt ∈ l, ∀ acc, body acc pt = some (acc + d pt)) →
      l.foldlM body s = some (s + (l.map d).sum) := by
  intro l
  induction l with
  | nil => intro s _; simp
  | cons a l ih =>
    intro s h
    rw [List.foldlM_cons, h a (List.mem_cons_self a l) s]
    show l.foldlM body (s + d a) = _
    rw [ih (s + d a) (fun pt hpt => h pt (List.mem_cons_of_mem a hpt)), List.map_cons,
      List.sum_cons]
    congr 1
    omega

theorem evaluate_pst_eq (pos : Position) (hpos : pos.OnBoard) :
    evaluate_pst pos = some ((pieceTypeLoop.map (pst_term pos)).sum) := by
  rw [evaluate_pst, foldlM_steps (evaluate_pst_body pos) (pst_term pos) pieceTypeLoop 0
    (fun pt hpt acc => evaluate_pst_body_eq pos hpos pt hpt acc)]
  simp

/-- A piece on a square outside the board makes the table read fail: with the pieces on
square 100 the positional evaluator has no result. -/
theorem evaluate_pst_off_board :
    evaluate_pst { sample_position with pieces := fun _ _ => 2 ^ 100 } = none := by
  decide

/-! ## The occupancy set of a bitboard -/

theorem mem_squaresOf : ∀ (b sq : Nat), sq ∈ squaresOf b ↔ b.testBit sq = true := by
  intro b
  induction b using Nat.strong_induction_on with
  | _ b ih =>
    intro sq
    by_cases hz : b = 0
    · subst hz; simp [squaresOf_zero]
    · rw [squaresOf_unfold b hz]
      cases sq with
      | zero =>
        by_cases hodd : b % 2 = 1
        · simp [hodd, Nat.testBit_zero]
        · simp [hodd, Nat.testBit_zero]
      | succ k =>
        rw [Nat.testBit_succ, ← ih (b / 2) (by omega) k]
        by_cases hodd : b % 2 = 1
        · simp [hodd]
        · simp [hodd]

theorem squaresOf_pairwise : ∀ (b : Nat), (squaresOf b).Pairwise (fun x y => x < y) := by
  intro b
  induction b using Nat.strong_induction_on with
  | _ b ih =>
    by_cases hz : b = 0
    · subst hz; simp [squaresOf_zero]
    · have hrec := ih (b / 2) (by omega)
      have hmap : ((squaresOf (b / 2)).map (fun sq => sq + 1)).Pairwise (fun x y => x < y) := by
        rw [List.pairwise_map]
        exact hrec.imp (fun h => by omega)
      rw [squaresOf_unfold b hz]
      by_cases hodd : b % 2 = 1
      · simp only [hodd, if_true, List.pairwise_cons]
        refine ⟨?_, hmap⟩
        intro a ha
        rw [List.mem_map] at ha
        obtain ⟨x, _, rfl⟩ := ha
        omega
      · simpa [hodd] using hmap

theorem squaresOf_nodup (b : Nat) : (squaresOf b).Nodup :=
  (squaresOf_pairwise b).imp (fun h => by omega)

theorem popcount_eq_card (b : Nat) :
    popcount b = (((Finset.range (b + 1)).filter (fun i => b.testBit i = true)).card : Int) := by
  have h : (squaresOf b).toFinset = (Finset.range (b + 1)).filter (fun i => b.testBit i = true) := by
    ext i
    simp only [List.mem_toFinset, mem_squaresOf, Finset.mem_filter, Finset.mem_range]
    constructor
    · intro hi
      refine ⟨?_, hi⟩
      have h1 : 2 ^ i ≤ b := Nat.testBit_implies_ge hi
      have h2 : i < 2 ^ i := Nat.lt_two_pow i
      omega
    · exact fun hi => hi.2
  rw [← h, List.toFinset_card_of_nodup (squaresOf_nodup b)]
  rfl

theorem popcount_nonneg (b : Nat) : 0 ≤ popcount b := by
  simp [popcount]

/-! ## The orchestrator -/

theorem evaluate_eq_map (T : Types) (pos : Position) :
    evaluate T pos = (evaluate_pst pos).map (fun pst =>
      std_clamp (mover_total T pos pst) (T.VALUE_MATED_IN_MAX_PLY + 1)
        (T.VALUE_MATE_IN_MAX_PLY - 1)) := by
  simp only [evaluate, red_total, Option.map_map]
  congr 1
  funext pst
  simp only [Function.comp, mover_total, total_of]
  cases h : pos.side_to_move <;> simp

theorem std_clamp_bounds (v lo hi : Int) (h : lo ≤ hi) :
    lo ≤ std_clamp v lo hi ∧ std_clamp v lo hi ≤ hi := by
  unfold std_clamp
  split_ifs <;> omega

theorem std_clamp_inside (v lo hi : Int) (h1 : lo ≤ v) (h2 : v ≤ hi) :
    std_clamp v lo hi = v := by
  unfold std_clamp
  split_ifs <;> omega

/-- C1: for every position, `evaluate` returns the clamp of `s` to the band from
`VALUE_MATED_IN_MAX_PLY + 1` to `VALUE_MATE_IN_MAX_PLY - 1`, where `s` is the sum `T` of
the five components when Red is to move and `-T` when Black is: the lower end of the band
when `s` is below it, the upper end when `s` is above it, and `s` itself when `s` is in
the band, in particular when `s` lies strictly between the two mate bounds; with the band
non-empty this is `max (MATED + 1) (min s (MATE - 1))`.  The score exists exactly when the
positional component does, which is the case whenever the occupied squares are on the
board. -/
theorem evaluate_clamp_of_sum (T : Types) (pos : Position) :
    (∀ pst s : Int, evaluate_pst pos = some pst →
        s = (if pos.side_to_move = .WHITE then
              evaluate_material T pos + pst + evaluate_mobility pos
                + evaluate_king_safety pos + evaluate_tactics pos
            else
              -(evaluate_material T pos + pst + evaluate_mobility pos
                + evaluate_king_safety pos + evaluate_tactics pos)) →
        (s < T.VALUE_MATED_IN_MAX_PLY + 1 →
          evaluate T pos = some (T.VALUE_MATED_IN_MAX_PLY + 1))
        ∧ (T.VALUE_MATED_IN_MAX_PLY + 1 ≤ s → T.VALUE_MATE_IN_MAX_PLY - 1 < s →
          evaluate T pos = some (T.VALUE_MATE_IN_MAX_PLY - 1))
        ∧ (T.VALUE_MATED_IN_MAX_PLY + 1 ≤ s → s ≤ T.VALUE_MATE_IN_MAX_PLY - 1 →
          evaluate T pos = some s)
        ∧ (T.VALUE_MATED_IN_MAX_PLY < s → s < T.VALUE_MATE_IN_MAX_PLY →
          evaluate T pos = some s)
        ∧ (T.VALUE_MATED_IN_MAX_PLY + 1 ≤ T.VALUE_MATE_IN_MAX_PLY - 1 →
          evaluate T pos
            = some (max (T.VALUE_MATED_IN_MAX_PLY + 1)
                (min s (T.VALUE_MATE_IN_MAX_PLY - 1)))))
    ∧ (evaluate_pst pos = none → evaluate T pos = none)
    ∧ (pos.OnBoard → ∃ pst, evaluate_pst pos = some pst) := by
  refine ⟨?_, ?_, ?_⟩
  · intro pst s hpst hs
    have hm : mover_total T pos pst = s := by rw [hs]; rfl
    have he : evaluate T pos
        = some (std_clamp s (T.VALUE_MATED_IN_MAX_PLY + 1)
            (T.VALUE_MATE_IN_MAX_PLY - 1)) := by
      rw [evaluate_eq_map, hpst, ← hm]
      rfl
    rw [he]
    refine ⟨?_, ?_, ?_, ?_, ?_⟩
    · intro h1
      simp only [std_clamp, h1, if_true]
    · intro h1 h2
      simp only [std_clamp, h2, if_true, if_neg (not_lt.2 h1)]
    · intro h1 h2
      rw [std_clamp_inside _ _ _ h1 h2]
    · intro h1 h2
      rw [std_clamp_inside _ _ _ (by omega) (by omega)]
    · intro hb
      congr 1
      unfold std_clamp
      rw [max_def, min_def]
      split_ifs <;> omega
  · intro hnone
    rw [evaluate_eq_map, hnone]
    rfl
  · intro hpos
    exact ⟨_, evaluate_pst_eq pos hpos⟩

theorem evaluate_clamp_of_sum_witness :
    evaluate sample_types sample_position = some 132
    ∧ evaluate sample_types_narrow sample_position
        = some (sample_types_narrow.VALUE_MATE_IN_MAX_PLY - 1)
    ∧ evaluate sample_types_narrow sample_position_no_advisor
        = some (sample_types_narrow.VALUE_MATED_IN_MAX_PLY + 1)
    ∧ evaluate sample_types_narrow sample_position
        = some (max (sample_types_narrow.VALUE_MATED_IN_MAX_PLY + 1)
            (min 132 (sample_types_narrow.VALUE_MATE_IN_MAX_PLY - 1)))
    ∧ ∃ pst, evaluate_pst sample_position = some pst :=
  ⟨((evaluate_clamp_of_sum sample_types sample_position).1 5 132 (by decide)
      (by decide)).2.2.2.1 (by decide) (by decide),
   ((evaluate_clamp_of_sum sample_types_narrow sample_position).1 5 132 (by decide)
      (by decide)).2.1 (by decide) (by decide),
   ((evaluate_clamp_of_sum sample_types_narrow sample_position_no_advisor).1 (-15) (-367)
      (by decide) (by decide)).1 (by decide),
   ((evaluate_clamp_of_sum sample_types_narrow sample_position).1 5 132 (by decide)
      (by decide)).2.2.2.2 (by decide),
   (evaluate_clamp_of_sum sample_types sample_position).2.2 (by decide)⟩

/-- C2: whenever `VALUE_MATED_IN_MAX_PLY + 1 ≤ VALUE_MATE_IN_MAX_PLY - 1`, every score
`evaluate` returns is strictly greater than `VALUE_MATED_IN_MAX_PLY` and strictly less
than `VALUE_MATE_IN_MAX_PLY`, whatever the pieces, king squares, side to move and
checkers are; and a score is returned whenever the occupied squares are on the board. -/
theorem evaluate_strictly_between_mate_bounds (T : Types) (pos : Position)
    (hbounds : T.VALUE_MATED_IN_MAX_PLY + 1 ≤ T.VALUE_MATE_IN_MAX_PLY - 1) :
    (∀ v, evaluate T pos = some v →
        T.VALUE_MATED_IN_MAX_PLY < v ∧ v < T.VALUE_MATE_IN_MAX_PLY)
    ∧ (pos.OnBoard → ∃ v, evaluate T pos = some v
        ∧ T.VALUE_MATED_IN_MAX_PLY < v ∧ v < T.VALUE_MATE_IN_MAX_PLY) := by
  have key : ∀ v, evaluate T pos = some v →
      T.VALUE_MATED_IN_MAX_PLY < v ∧ v < T.VALUE_MATE_IN_MAX_PLY := by
    intro v hv
    rw [evaluate_eq_map] at hv
    cases hp : evaluate_pst pos with
    | none => rw [hp] at hv; exact absurd hv (by simp)
    | some pst =>
      rw [hp] at hv
      have hv2 : std_clamp (mover_total T pos pst) (T.VALUE_MATED_IN_MAX_PLY + 1)
          (T.VALUE_MATE_IN_MAX_PLY - 1) = v := Option.some.inj hv
      have := std_clamp_bounds (mover_total T pos pst) _ _ hbounds
      omega
  refine ⟨key, ?_⟩
  intro hpos
  have hs : evaluate T pos
      = some (std_clamp (mover_total T pos ((pieceTypeLoop.map (pst_term pos)).sum))
          (T.VALUE_MATED_IN_MAX_PLY + 1) (T.VALUE_MATE_IN_MAX_PLY - 1)) := by
    rw [evaluate_eq_map, evaluate_pst_eq pos hpos]
    rfl
  exact ⟨_, hs, key _ hs⟩

theorem evaluate_strictly_between_mate_bounds_witness :
    ∃ v, evaluate sample_types sample_position = some v
      ∧ sample_types.VALUE_MATED_IN_MAX_PLY < v ∧ v < sample_types.VALUE_MATE_IN_MAX_PLY :=
  (evaluate_strictly_between_mate_bounds sample_types sample_position (by decide)).2
    (by decide)

/-! ## The mirroring helper: involution -/

/-- C4: mirroring twice gives the square back, for every square `0 ≤ sq < 90`. -/
theorem mirror_square_involution (sq : Int) (h0 : 0 ≤ sq) (h90 : sq < 90) :
    mirror_square (mirror_square sq) = sq :=
  mirror_square_mirror_square sq h0 h90

theorem mirror_square_involution_witness :
    mirror_square (mirror_square 31) = 31 :=
  mirror_square_involution 31 (by decide) (by decide)

/-! ## The material evaluator -/

theorem evaluate_material_formula (T : Types) (pos : Position) :
    evaluate_material T pos
      = T.PieceValue .ROOK
            * (popcount (pos.pieces .WHITE .ROOK) - popcount (pos.pieces .BLACK .ROOK))
        + T.PieceValue .ADVISOR
            * (popcount (pos.pieces .WHITE .ADVISOR) - popcount (pos.pieces .BLACK .ADVISOR))
        + T.PieceValue .CANNON
            * (popcount (pos.pieces .WHITE .CANNON) - popcount (pos.pieces .BLACK .CANNON))
        + T.PieceValue .PAWN
            * (popcount (pos.pieces .WHITE .PAWN) - popcount (pos.pieces .BLACK .PAWN))
        + T.PieceValue .KNIGHT
            * (popcount (pos.pieces .WHITE .KNIGHT) - popcount (pos.pieces .BLACK .KNIGHT))
        + T.PieceValue .BISHOP
            * (popcount (pos.pieces .WHITE .BISHOP) - popcount (pos.pieces .BLACK .BISHOP))
        + T.PieceValue .KING
            * (popcount (pos.pieces .WHITE .KING) - popcount (pos.pieces .BLACK .KING)) := by
  simp only [evaluate_material, pieceTypeLoop, List.foldl]
  ring

/-- C5: `evaluate_material` is the sum over the seven piece types of the piece value times
(number of Red pieces minus number of Black pieces), the numbers being the sizes of the
occupancy sets as `popcount` reports them, which is the number of set bits of the
bitboard; neither the occupancy nor the value of the no-piece-type slot enters. -/
theorem evaluate_material_eq_sum (T : Types) (pos : Position) :
    evaluate_material T pos
      = T.PieceValue .ROOK * (piece_count pos .WHITE .ROOK - piece_count pos .BLACK .ROOK)
        + T.PieceValue .ADVISOR
            * (piece_count pos .WHITE .ADVISOR - piece_count pos .BLACK .ADVISOR)
        + T.PieceValue .CANNON
            * (piece_count pos .WHITE .CANNON - piece_count pos .BLACK .CANNON)
        + T.PieceValue .PAWN * (piece_count pos .WHITE .PAWN - piece_count pos .BLACK .PAWN)
        + T.PieceValue .KNIGHT
            * (piece_count pos .WHITE .KNIGHT - piece_count pos .BLACK .KNIGHT)
        + T.PieceValue .BISHOP
            * (piece_count pos .WHITE .BISHOP - piece_count pos .BLACK .BISHOP)
        + T.PieceValue .KING * (piece_count pos .WHITE .KING - piece_count pos .BLACK .KING)
    ∧ ∀ (c : Color) (pt : PieceType),
        piece_count pos c pt = popcount (pos.pieces c pt)
        ∧ piece_count pos c pt
            = (((Finset.range (pos.pieces c pt + 1)).filter
                (fun i => (pos.pieces c pt).testBit i = true)).card : Int) := by
  constructor
  · exact evaluate_material_formula T pos
  · intro c pt
    exact ⟨rfl, popcount_eq_card (pos.pieces c pt)⟩

/-! ## The mobility evaluator -/

theorem evaluate_mobility_formula (pos : Position) :
    evaluate_mobility pos
      = 3 * (14 * (popcount (pos.pieces .WHITE .ROOK) - popcount (pos.pieces .BLACK .ROOK))
          + 8 * (popcount (pos.pieces .WHITE .KNIGHT) - popcount (pos.pieces .BLACK .KNIGHT))
          + 10 * (popcount (pos.pieces .WHITE .CANNON) - popcount (pos.pieces .BLACK .CANNON))
          + 2 * (popcount (pos.pieces .WHITE .PAWN) - popcount (pos.pieces .BLACK .PAWN))
          + 4 * (popcount (pos.pieces .WHITE .ADVISOR)
              - popcount (pos.pieces .BLACK .ADVISOR))
          + 4 * (popcount (pos.pieces .WHITE .BISHOP) - popcount (pos.pieces .BLACK .BISHOP))
          + 4 * (popcount (pos.pieces .WHITE .KING) - popcount (pos.pieces .BLACK .KING))) := by
  simp only [evaluate_mobility, pieceTypeLoop, List.foldl, mobility_per_piece,
    MOBILITY_FACTOR]
  ring

/-- C7: `evaluate_mobility` is three times the sum over the piece types of the weight of
the type (rook 14, knight 8, cannon 10, pawn 2, advisor 4, bishop 4, king 4) times
(number of Red pieces minus number of Black pieces); two positions with the same piece
counts per side and type have the same mobility score, wherever the pieces stand. -/
theorem evaluate_mobility_eq_weighted_counts (pos : Position) :
    evaluate_mobility pos
      = 3 * (14 * (piece_count pos .WHITE .ROOK - piece_count pos .BLACK .ROOK)
          + 8 * (piece_count pos .WHITE .KNIGHT - piece_count pos .BLACK .KNIGHT)
          + 10 * (piece_count pos .WHITE .CANNON - piece_count pos .BLACK .CANNON)
          + 2 * (piece_count pos .WHITE .PAWN - piece_count pos .BLACK .PAWN)
          + 4 * (piece_count pos .WHITE .ADVISOR - piece_count pos .BLACK .ADVISOR)
          + 4 * (piece_count pos .WHITE .BISHOP - piece_count pos .BLACK .BISHOP)
          + 4 * (piece_count pos .WHITE .KING - piece_count pos .BLACK .KING))
    ∧ ∀ pos2 : Position,
        (∀ (c : Color) (pt : PieceType), piece_count pos2 c pt = piece_count pos c pt) →
        evaluate_mobility pos2 = evaluate_mobility pos := by
  constructor
  · exact evaluate_mobility_formula pos
  · intro pos2 h
    have h2 : ∀ (c : Color) (pt : PieceType),
        popcount (pos2.pieces c pt) = popcount (pos.pieces c pt) := h
    rw [evaluate_mobility_formula, evaluate_mobility_formula]
    simp only [h2]

theorem evaluate_mobility_eq_weighted_counts_witness :
    evaluate_mobility sample_position_moved = evaluate_mobility sample_position :=
  (evaluate_mobility_eq_weighted_counts sample_position).2 sample_position_moved (by decide)

/-! ## The positional evaluator -/

/-- C6: for a position whose occupied squares all lie in `[0, 90)`, `evaluate_pst` returns
the sum over the seven piece types of the table values at Red's squares minus the table
values at the mirror images of Black's squares; each of the seven types owns a table of 90
entries and only the no-piece-type slot has none; and every index read, a Red square or
the mirror image of a Black square, lies in `[0, 90)` and the read succeeds. -/
theorem evaluate_pst_eq_table_sum (pos : Position) (hpos : pos.OnBoard) :
    evaluate_pst pos
        = some ((pieceTypeLoop.map (fun pt =>
            ((squaresOf (pos.pieces .WHITE pt)).map (fun (sq : Nat) => PST pt (sq : Int))).sum
              - ((squaresOf (pos.pieces .BLACK pt)).map
                  (fun (sq : Nat) => PST pt (mirror_square (sq : Int)))).sum)).sum)
    ∧ (∀ pt, PIECE_SQUARE_TABLES pt = none ↔ pt = .NO_PIECE_TYPE)
    ∧ (∀ pt ∈ pieceTypeLoop, ∃ pst_table, PIECE_SQUARE_TABLES pt = some pst_table
        ∧ pst_table.length = 90
        ∧ (∀ sq ∈ squaresOf (pos.pieces .WHITE pt),
            0 ≤ (sq : Int) ∧ (sq : Int) < 90
              ∧ tableAt pst_table (sq : Int) = some (PST pt (sq : Int)))
        ∧ (∀ sq ∈ squaresOf (pos.pieces .BLACK pt),
            0 ≤ mirror_square (sq : Int) ∧ mirror_square (sq : Int) < 90
              ∧ tableAt pst_table (mirror_square (sq : Int))
                  = some (PST pt (mirror_square (sq : Int))))) := by
  refine ⟨evaluate_pst_eq pos hpos, ?_, ?_⟩
  · intro pt
    cases pt <;> simp [PIECE_SQUARE_TABLES]
  · intro pt hpt
    obtain ⟨t, ht⟩ := PIECE_SQUARE_TABLES_loop pt hpt
    have hlen := PIECE_SQUARE_TABLES_length pt t ht
    have hPST : ∀ i, PST pt i = (tableAt t i).getD 0 := by
      intro i; simp [PST, ht]
    refine ⟨t, ht, hlen, ?_, ?_⟩
    · intro sq hsq
      have hlt : sq < 90 := squaresOf_lt 90 _ (hpos .WHITE pt) sq hsq
      refine ⟨by omega, by omega, ?_⟩
      rw [hPST]
      exact tableAt_eq_some t hlen sq (by omega) (by omega)
    · intro sq hsq
      have hlt : sq < 90 := squaresOf_lt 90 _ (hpos .BLACK pt) sq hsq
      have hr := mirror_square_range (sq : Int) (by omega) (by omega)
      refine ⟨hr.1, hr.2, ?_⟩
      rw [hPST]
      exact tableAt_eq_some t hlen _ hr.1 hr.2

theorem evaluate_pst_eq_table_sum_witness :
    evaluate_pst sample_position
        = some ((pieceTypeLoop.map (fun pt =>
            ((squaresOf (sample_position.pieces .WHITE pt)).map
                (fun (sq : Nat) => PST pt (sq : Int))).sum
              - ((squaresOf (sample_position.pieces .BLACK pt)).map
                  (fun (sq : Nat) => PST pt (mirror_square (sq : Int)))).sum)).sum) :=
  (evaluate_pst_eq_table_sum sample_position (by decide)).1

/-! ## The king-safety evaluator -/

theorem std_abs_eq_abs (x : Int) : std_abs x = |x| := by
  unfold std_abs
  split_ifs with h
  · exact (abs_of_neg h).symm
  · exact (abs_of_nonneg (by omega)).symm

theorem evaluate_king_safety_formula (pos : Position) :
    evaluate_king_safety pos
      = (10 * ((2 - |Int.tmod (pos.king_square .WHITE) 9 - 4|)
              + (1 - |Int.tdiv (pos.king_square .WHITE) 9 - 8|))
          + (if 1 ≤ piece_count pos .WHITE .ADVISOR then 15 else 0))
        - (10 * ((2 - |Int.tmod (pos.king_square .BLACK) 9 - 4|)
              + (1 - |Int.tdiv (pos.king_square .BLACK) 9 - 1|))
          + (if 1 ≤ piece_count pos .BLACK .ADVISOR then 15 else 0)) := by
  simp only [evaluate_king_safety, std_abs_eq_abs, FILE_NB, FILE_E, piece_count, popcount,
    ge_iff_le]
  split_ifs <;> ring

/-- C8: for king squares in `[0, 90)`, `evaluate_king_safety` is Red's bonus minus
Black's bonus, each bonus being ten times ((2 - file distance from file 4) + (1 - rank
distance from rank 8 for Red, from rank 1 for Black)) plus 15 when the side has at least
one advisor, with file `sq mod 9` and rank `sq div 9`; a side with exactly one advisor
scores the same as with two or more. -/
theorem evaluate_king_safety_eq_bonus_difference (pos : Position) (hk : pos.KingsOnBoard) :
    evaluate_king_safety pos
      = (10 * ((2 - |pos.king_square .WHITE % 9 - 4|)
              + (1 - |pos.king_square .WHITE / 9 - 8|))
          + (if 1 ≤ piece_count pos .WHITE .ADVISOR then 15 else 0))
        - (10 * ((2 - |pos.king_square .BLACK % 9 - 4|)
              + (1 - |pos.king_square .BLACK / 9 - 1|))
          + (if 1 ≤ piece_count pos .BLACK .ADVISOR then 15 else 0))
    ∧ ∀ (pos2 : Position) (c : Color),
        (∀ c2, pos2.king_square c2 = pos.king_square c2) →
        pos2.pieces c.opposite .ADVISOR = pos.pieces c.opposite .ADVISOR →
        piece_count pos c .ADVISOR = 1 →
        2 ≤ piece_count pos2 c .ADVISOR →
        evaluate_king_safety pos2 = evaluate_king_safety pos := by
  constructor
  · rw [evaluate_king_safety_formula]
    rw [Int.tdiv_eq_ediv (hk .WHITE).1 (by decide), Int.tmod_eq_emod (hk .WHITE).1 (by decide),
      Int.tdiv_eq_ediv (hk .BLACK).1 (by decide), Int.tmod_eq_emod (hk .BLACK).1 (by decide)]
  · intro pos2 c hking hother hone htwo
    rw [evaluate_king_safety_formula, evaluate_king_safety_formula, hking .WHITE,
      hking .BLACK]
    cases c
    · have hb : piece_count pos2 .BLACK .ADVISOR = piece_count pos .BLACK .ADVISOR := by
        simp only [piece_count]
        rw [show pos2.pieces .BLACK .ADVISOR = pos.pieces .BLACK .ADVISOR from hother]
      rw [hb, if_pos (show 1 ≤ piece_count pos2 .WHITE .ADVISOR by omega),
        if_pos (show 1 ≤ piece_count pos .WHITE .ADVISOR by omega)]
    · have hw : piece_count pos2 .WHITE .ADVISOR = piece_count pos .WHITE .ADVISOR := by
        simp only [piece_count]
        rw [show pos2.pieces .WHITE .ADVISOR = pos.pieces .WHITE .ADVISOR from hother]
      rw [hw, if_pos (show 1 ≤ piece_count pos2 .BLACK .ADVISOR by omega),
        if_pos (show 1 ≤ piece_count pos .BLACK .ADVISOR by omega)]

theorem evaluate_king_safety_eq_bonus_difference_witness :
    evaluate_king_safety sample_position = evaluate_king_safety sample_position_one_advisor :=
  (evaluate_king_safety_eq_bonus_difference sample_position_one_advisor (by decide)).2
    sample_position .WHITE (by decide) (by decide) (by decide) (by decide)

/-! ## The tactical evaluator -/

theorem evaluate_tactics_formula (pos : Position) :
    evaluate_tactics pos
      = if pos.checkers = 0 then 0 else if pos.side_to_move = .WHITE then -50 else 50 := by
  unfold evaluate_tactics
  by_cases h : pos.checkers = 0
  · simp [h]
  · by_cases hs : pos.side_to_move = .WHITE
    · simp [h, hs]
    · simp [h, hs]

/-- C9: `evaluate_tactics` is 0 when `checkers` is empty; when it is non-empty the result
is -50 with Red to move and +50 with Black to move, so the side in check (the side to
move, by the contract of `checkers`) bears the 50 points in the Red-perspective score;
and the result depends on `checkers` only through its being empty or not. -/
theorem evaluate_tactics_eq_check_penalty (pos : Position) :
    (pos.checkers = 0 → evaluate_tactics pos = 0)
    ∧ (pos.checkers ≠ 0 → pos.side_to_move = .WHITE → evaluate_tactics pos = -50)
    ∧ (pos.checkers ≠ 0 → pos.side_to_move = .BLACK → evaluate_tactics pos = 50)
    ∧ (pos.in_check .WHITE → evaluate_tactics pos = -50)
    ∧ (pos.in_check .BLACK → evaluate_tactics pos = 50)
    ∧ ∀ pos2 : Position, pos2.side_to_move = pos.side_to_move →
        (pos2.checkers = 0 ↔ pos.checkers = 0) →
        evaluate_tactics pos2 = evaluate_tactics pos := by
  refine ⟨?_, ?_, ?_, ?_, ?_, ?_⟩
  · intro h; simp [evaluate_tactics_formula, h]
  · intro h hs; simp [evaluate_tactics_formula, h, hs]
  · intro h hs; simp [evaluate_tactics_formula, h, hs]
  · intro h; simp [evaluate_tactics_formula, h.1, h.2]
  · intro h; simp [evaluate_tactics_formula, h.1, h.2]
  · intro pos2 hs hc
    rw [evaluate_tactics_formula, evaluate_tactics_formula, hs]
    by_cases h : pos.checkers = 0
    · rw [if_pos h, if_pos (hc.2 h)]
    · rw [if_neg h, if_neg (fun h2 => h (hc.1 h2))]

theorem evaluate_tactics_eq_check_penalty_witness :
    evaluate_tactics sample_position = 0
    ∧ evaluate_tactics sample_position_in_check = -50
    ∧ evaluate_tactics sample_position_double_check
        = evaluate_tactics sample_position_in_check :=
  ⟨(evaluate_tactics_eq_check_penalty sample_position).1 (by decide),
   (evaluate_tactics_eq_check_penalty sample_position_in_check).2.1 (by decide) (by decide),
   (evaluate_tactics_eq_check_penalty sample_position_in_check).2.2.2.2.2
     sample_position_double_check (by decide) (by decide)⟩

/-! ## The check-sign scenario -/

theorem red_total_congr (T : Types) (p q : Position) (hpieces : q.pieces = p.pieces)
    (hking : q.king_square = p.king_square) (hside : q.side_to_move = p.side_to_move) :
    red_total T q
      = (red_total T p).map (fun t => t - evaluate_tactics p + evaluate_tactics q) := by
  obtain ⟨pp, pk, ps, pc⟩ := p
  obtain ⟨qp, qk, qs, qc⟩ := q
  simp only at hpieces hking hside
  subst hpieces hking hside
  simp only [red_total, Option.map_map]
  have h1 : evaluate_pst ⟨qp, qk, qs, qc⟩ = evaluate_pst ⟨qp, qk, qs, pc⟩ := rfl
  rw [h1]
  congr 1
  funext pst
  simp only [Function.comp, evaluate_material, evaluate_mobility, evaluate_king_safety]
  ring

/-- C10: of two positions with the same pieces, king squares and side to move, one with
empty and one with non-empty `checkers`, the Red-perspective total of the five components
of the in-check position is the total of the other minus 50 when Red is to move and plus
50 when Black is to move; both totals exist when the occupied squares are on the board. -/
theorem red_total_check_sign (T : Types) (p q : Position) (hpieces : q.pieces = p.pieces)
    (hking : q.king_square = p.king_square) (hside : q.side_to_move = p.side_to_move)
    (hp : p.checkers = 0) (hq : q.checkers ≠ 0) :
    (p.side_to_move = .WHITE → red_total T q = (red_total T p).map (fun t => t - 50))
    ∧ (p.side_to_move = .BLACK → red_total T q = (red_total T p).map (fun t => t + 50))
    ∧ (p.OnBoard → ∃ t, red_total T p = some t
        ∧ red_total T q = some (if p.side_to_move = .WHITE then t - 50 else t + 50)) := by
  have hcongr := red_total_congr T p q hpieces hking hside
  have htp : evaluate_tactics p = 0 := by simp [evaluate_tactics_formula, hp]
  have hw : p.side_to_move = .WHITE → evaluate_tactics q = -50 := by
    intro hs; simp [evaluate_tactics_formula, hq, hside, hs]
  have hb : p.side_to_move = .BLACK → evaluate_tactics q = 50 := by
    intro hs; simp [evaluate_tactics_formula, hq, hside, hs]
  refine ⟨?_, ?_, ?_⟩
  · intro hs
    rw [hcongr, htp, hw hs]
    congr 1
    funext t
    ring
  · intro hs
    rw [hcongr, htp, hb hs]
    congr 1
    funext t
    ring
  · intro hon
    have hpst := evaluate_pst_eq p hon
    have hrt : red_total T p = some (0 + evaluate_material T p
        + (pieceTypeLoop.map (pst_term p)).sum + evaluate_mobility p
        + evaluate_king_safety p + evaluate_tactics p) := by
      simp only [red_total, hpst, Option.map_some']
    refine ⟨_, hrt, ?_⟩
    rw [hcongr, hrt, htp]
    cases hs : p.side_to_move
    · rw [hw hs]
      simp only [Option.map_some', if_true]
      congr 1
      ring
    · rw [hb hs]
      simp only [Option.map_some']
      rw [if_neg (by decide)]
      congr 1
      ring

theorem red_total_check_sign_witness :
    red_total sample_types sample_position_in_check
        = (red_total sample_types sample_position).map (fun t => t - 50)
    ∧ red_total sample_types sample_position_flipped_in_check
        = (red_total sample_types sample_position_flipped).map (fun t => t + 50)
    ∧ ∃ t, red_total sample_types sample_position = some t
        ∧ red_total sample_types sample_position_in_check
            = some (if sample_position.side_to_move = .WHITE then t - 50 else t + 50) :=
  ⟨(red_total_check_sign sample_types sample_position sample_position_in_check rfl rfl rfl
      (by decide) (by decide)).1 (by decide),
   (red_total_check_sign sample_types sample_position_flipped
      sample_position_flipped_in_check rfl rfl rfl (by decide) (by decide)).2.1 (by decide),
   (red_total_check_sign sample_types sample_position sample_position_in_check rfl rfl rfl
      (by decide) (by decide)).2.2 (by decide)⟩

/-! ## Colour-flip symmetry -/

theorem lt_two_pow_of_squaresOf (n b : Nat) (h : ∀ sq ∈ squaresOf b, sq < n) : b < 2 ^ n := by
  apply Nat.lt_pow_two_of_testBit
  intro i hi
  cases hbit : b.testBit i with
  | false => rfl
  | true =>
    have := h i ((mem_squaresOf b i).2 hbit)
    omega

theorem mirror_square_tmod (sq : Int) (h0 : 0 ≤ sq) (h1 : sq < 90) :
    Int.tmod (mirror_square sq) 9 = Int.tmod sq 9
      ∧ Int.tdiv (mirror_square sq) 9 = 9 - Int.tdiv sq 9 := by
  have hr := mirror_square_range sq h0 h1
  rw [Int.tmod_eq_emod hr.1 (by decide), Int.tdiv_eq_ediv hr.1 (by decide),
    Int.tmod_eq_emod h0 (by decide), Int.tdiv_eq_ediv h0 (by decide),
    mirror_square_eq sq h0]
  omega

theorem IsColourFlip.popcount_eq {pos flipped : Position} (h : IsColourFlip pos flipped)
    (c : Color) (pt : PieceType) :
    popcount (flipped.pieces c.opposite pt) = popcount (pos.pieces c pt) := by
  have := (h.1 c pt).length_eq
  simp only [List.length_map] at this
  simp only [popcount, this]

theorem IsColourFlip.onBoard {pos flipped : Position} (h : IsColourFlip pos flipped)
    (hpos : pos.OnBoard) : flipped.OnBoard := by
  have key : ∀ (c : Color) (pt : PieceType), flipped.pieces c.opposite pt < 2 ^ SQUARE_NB := by
    intro c pt
    apply lt_two_pow_of_squaresOf
    intro sq hsq
    have hmem : (sq : Int) ∈ (squaresOf (flipped.pieces c.opposite pt)).map
        (fun (sq : Nat) => (sq : Int)) := List.mem_map.2 ⟨sq, hsq, rfl⟩
    have hmem2 := (h.1 c pt).mem_iff.1 hmem
    obtain ⟨a, ha, hsa⟩ := List.mem_map.1 hmem2
    have hlt : a < 90 := squaresOf_lt 90 _ (hpos c pt) a ha
    have hr := mirror_square_range (a : Int) (by omega) (by omega)
    simp only [SQUARE_NB]
    omega
  intro c pt
  cases c
  · exact key .BLACK pt
  · exact key .WHITE pt

theorem IsColourFlip.pst_term_neg {pos flipped : Position} (h : IsColourFlip pos flipped)
    (hpos : pos.OnBoard) (pt : PieceType) :
    pst_term flipped pt = -(pst_term pos pt) := by
  have hW : ((squaresOf (flipped.pieces .WHITE pt)).map (fun (sq : Nat) => PST pt (sq : Int))).sum
      = ((squaresOf (pos.pieces .BLACK pt)).map
          (fun (sq : Nat) => PST pt (mirror_square (sq : Int)))).sum := by
    have hperm := (h.1 .BLACK pt).map (PST pt)
    simp only [List.map_map, Color.opposite] at hperm
    exact hperm.sum_eq
  have hB : ((squaresOf (flipped.pieces .BLACK pt)).map
        (fun (sq : Nat) => PST pt (mirror_square (sq : Int)))).sum
      = ((squaresOf (pos.pieces .WHITE pt)).map (fun (sq : Nat) => PST pt (sq : Int))).sum := by
    have hperm := (h.1 .WHITE pt).map (fun i => PST pt (mirror_square i))
    simp only [List.map_map, Color.opposite] at hperm
    rw [show (fun (sq : Nat) => PST pt (mirror_square (sq : Int)))
        = (fun i => PST pt (mirror_square i)) ∘ (fun (sq : Nat) => (sq : Int)) from rfl]
    rw [hperm.sum_eq]
    congr 1
    apply List.map_congr_left
    intro sq hsq
    have hlt : sq < 90 := squaresOf_lt 90 _ (hpos .WHITE pt) sq hsq
    show PST pt (mirror_square (mirror_square (sq : Int))) = PST pt (sq : Int)
    rw [mirror_square_mirror_square (sq : Int) (by omega) (by omega)]
  simp only [pst_term, hW, hB]
  ring

theorem IsColourFlip.material_neg {pos flipped : Position} (h : IsColourFlip pos flipped)
    (T : Types) : evaluate_material T flipped = -(evaluate_material T pos) := by
  have hw := fun pt => h.popcount_eq .BLACK pt
  have hb := fun pt => h.popcount_eq .WHITE pt
  simp only [Color.opposite] at hw hb
  rw [evaluate_material_formula, evaluate_material_formula]
  simp only [hw, hb]
  ring

theorem IsColourFlip.mobility_neg {pos flipped : Position} (h : IsColourFlip pos flipped) :
    evaluate_mobility flipped = -(evaluate_mobility pos) := by
  have hw := fun pt => h.popcount_eq .BLACK pt
  have hb := fun pt => h.popcount_eq .WHITE pt
  simp only [Color.opposite] at hw hb
  rw [evaluate_mobility_formula, evaluate_mobility_formula]
  simp only [hw, hb]
  ring

theorem IsColourFlip.king_safety_neg {pos flipped : Position} (h : IsColourFlip pos flipped)
    (hk : pos.KingsOnBoard) : evaluate_king_safety flipped = -(evaluate_king_safety pos) := by
  have hw := h.popcount_eq .BLACK .ADVISOR
  have hb := h.popcount_eq .WHITE .ADVISOR
  have kw := h.2.1 .BLACK
  have kb := h.2.1 .WHITE
  simp only [Color.opposite] at hw hb kw kb
  have hW := hk .WHITE
  have hB := hk .BLACK
  simp only [SQUARE_NB, Nat.cast_ofNat] at hW hB
  have mW := mirror_square_tmod _ hW.1 hW.2
  have mB := mirror_square_tmod _ hB.1 hB.2
  simp only [evaluate_king_safety, FILE_NB, FILE_E, kw, kb, hw, hb, mW.1, mW.2, mB.1, mB.2,
    std_abs]
  split_ifs <;> omega

theorem IsColourFlip.tactics_neg {pos flipped : Position} (h : IsColourFlip pos flipped) :
    evaluate_tactics flipped = -(evaluate_tactics pos) := by
  have hs := h.2.2.1
  have hc := h.2.2.2
  rw [evaluate_tactics_formula, evaluate_tactics_formula, hs]
  by_cases hz : pos.checkers = 0
  · have hz2 : flipped.checkers = 0 := by
      by_contra hne
      exact (hc.1 hne) hz
    simp [hz, hz2]
  · have hz2 : flipped.checkers ≠ 0 := hc.2 hz
    cases hside : pos.side_to_move <;> simp [hz, hz2, Color.opposite]

/-! ## The mirrored position exists -/

theorem testBit_foldl_or (f : Nat → Nat) (n : Nat) : ∀ (l : List Nat) (a : Nat),
    (l.foldl (fun acc sq => acc ||| 2 ^ f sq) a).testBit n = true
      ↔ a.testBit n = true ∨ ∃ sq ∈ l, f sq = n := by
  intro l
  induction l with
  | nil => intro a; simp
  | cons x l ih =>
    intro a
    rw [List.foldl_cons, ih (a ||| 2 ^ f x), Nat.testBit_or, Nat.testBit_two_pow]
    simp only [Bool.or_eq_true, decide_eq_true_eq, List.mem_cons, exists_eq_or_imp]
    tauto

theorem mem_squaresOf_mirror_bitboard (b n : Nat) :
    n ∈ squaresOf (mirror_bitboard b)
      ↔ ∃ sq ∈ squaresOf b, (mirror_square (sq : Int)).toNat = n := by
  rw [mem_squaresOf, mirror_bitboard,
    testBit_foldl_or (fun sq => (mirror_square (sq : Int)).toNat) n (squaresOf b) 0]
  simp

theorem mirror_bitboard_eq_zero (b : Nat) : mirror_bitboard b = 0 ↔ b = 0 := by
  constructor
  · intro h
    by_contra hb
    have hne := squaresOf_ne_nil b hb
    obtain ⟨sq, hsq⟩ := List.exists_mem_of_ne_nil _ hne
    have hmem := (mem_squaresOf_mirror_bitboard b _).2 ⟨sq, hsq, rfl⟩
    rw [h, squaresOf_zero] at hmem
    exact absurd hmem (List.not_mem_nil _)
  · intro h
    subst h
    simp [mirror_bitboard, squaresOf_zero]

theorem squaresOf_mirror_bitboard_perm (b : Nat) (hb : b < 2 ^ SQUARE_NB) :
    List.Perm ((squaresOf (mirror_bitboard b)).map (fun (sq : Nat) => (sq : Int)))
      ((squaresOf b).map (fun (sq : Nat) => mirror_square (sq : Int))) := by
  have hlt : ∀ sq ∈ squaresOf b, sq < 90 := squaresOf_lt 90 b hb
  have hnonneg : ∀ sq ∈ squaresOf b, 0 ≤ mirror_square (sq : Int) := fun sq hsq =>
    (mirror_square_range (sq : Int) (by omega) (by have := hlt sq hsq; omega)).1
  have d1 : ((squaresOf (mirror_bitboard b)).map (fun (sq : Nat) => (sq : Int))).Nodup :=
    (squaresOf_nodup _).map (fun x y h => by simpa using h)
  have d2 : ((squaresOf b).map (fun (sq : Nat) => mirror_square (sq : Int))).Nodup := by
    apply List.Nodup.map_on _ (squaresOf_nodup b)
    intro x hx y hy hxy
    have hx2 := mirror_square_mirror_square (x : Int) (by omega) (by have := hlt x hx; omega)
    have hy2 := mirror_square_mirror_square (y : Int) (by omega) (by have := hlt y hy; omega)
    rw [hxy, hy2] at hx2
    omega
  rw [List.perm_ext_iff_of_nodup d1 d2]
  intro i
  simp only [List.mem_map, mem_squaresOf_mirror_bitboard]
  constructor
  · rintro ⟨n, ⟨sq, hsq, rfl⟩, rfl⟩
    exact ⟨sq, hsq, (Int.toNat_of_nonneg (hnonneg sq hsq)).symm⟩
  · rintro ⟨sq, hsq, rfl⟩
    exact ⟨_, ⟨sq, hsq, rfl⟩, Int.toNat_of_nonneg (hnonneg sq hsq)⟩

theorem isColourFlip_mirror_position (pos : Position) (hpos : pos.OnBoard) :
    IsColourFlip pos (mirror_position pos) := by
  refine ⟨?_, ?_, rfl, ?_⟩
  · intro c pt
    cases c <;> exact squaresOf_mirror_bitboard_perm _ (hpos _ pt)
  · intro c
    cases c <;> rfl
  · show mirror_bitboard pos.checkers ≠ 0 ↔ pos.checkers ≠ 0
    rw [Ne, Ne, mirror_bitboard_eq_zero]

/-- C3: let `pos` have all its occupied squares and both king squares in `[0, 90)` and let
`flipped` be `pos` with the whole board mirrored (pieces to the other side on the mirrored
squares, king squares swapped and mirrored, side to move swapped, `checkers` non-empty in
both or in neither).  Then the Red-perspective total of the five components of `flipped`
is the negation of that of `pos`, and `evaluate` returns the same score for both (for any
mate bounds, hence also when `VALUE_MATED_IN_MAX_PLY = -VALUE_MATE_IN_MAX_PLY`). -/
theorem colour_flip_symmetry (T : Types) (pos flipped : Position) (hpos : pos.OnBoard)
    (hk : pos.KingsOnBoard) (hflip : IsColourFlip pos flipped) :
    ∃ t v, red_total T pos = some t ∧ red_total T flipped = some (-t)
      ∧ evaluate T pos = some v ∧ evaluate T flipped = some v := by
  have hpst := evaluate_pst_eq pos hpos
  have hpst2 := evaluate_pst_eq flipped (hflip.onBoard hpos)
  have hsum : (pieceTypeLoop.map (pst_term flipped)).sum
      = -((pieceTypeLoop.map (pst_term pos)).sum) := by
    simp only [pieceTypeLoop, List.map_cons, List.map_nil, List.sum_cons, List.sum_nil,
      hflip.pst_term_neg hpos]
    ring
  have h1 : red_total T pos = some (0 + evaluate_material T pos
      + (pieceTypeLoop.map (pst_term pos)).sum + evaluate_mobility pos
      + evaluate_king_safety pos + evaluate_tactics pos) := by
    simp only [red_total, hpst, Option.map_some']
  have h2 : red_total T flipped = some (-(0 + evaluate_material T pos
      + (pieceTypeLoop.map (pst_term pos)).sum + evaluate_mobility pos
      + evaluate_king_safety pos + evaluate_tactics pos)) := by
    simp only [red_total, hpst2, Option.map_some', hsum, hflip.material_neg T,
      hflip.mobility_neg, hflip.king_safety_neg hk, hflip.tactics_neg]
    congr 1
    ring
  generalize 0 + evaluate_material T pos + (pieceTypeLoop.map (pst_term pos)).sum
    + evaluate_mobility pos + evaluate_king_safety pos + evaluate_tactics pos = t at h1 h2
  have h3 : evaluate T pos
      = some (std_clamp (if pos.side_to_move = .BLACK then -t else t)
          (T.VALUE_MATED_IN_MAX_PLY + 1) (T.VALUE_MATE_IN_MAX_PLY - 1)) := by
    simp only [evaluate, h1, Option.map_some']
  have h4 : evaluate T flipped
      = some (std_clamp (if pos.side_to_move = .BLACK then -t else t)
          (T.VALUE_MATED_IN_MAX_PLY + 1) (T.VALUE_MATE_IN_MAX_PLY - 1)) := by
    simp only [evaluate, h2, Option.map_some', hflip.2.2.1]
    cases hside : pos.side_to_move <;> simp [Color.opposite]
  exact ⟨t, _, h1, h2, h3, h4⟩

theorem colour_flip_symmetry_witness :
    ∃ t v, red_total sample_types sample_position = some t
      ∧ red_total sample_types sample_position_flipped = some (-t)
      ∧ evaluate sample_types sample_position = some v
      ∧ evaluate sample_types sample_position_flipped = some v :=
  colour_flip_symmetry sample_types sample_position sample_position_flipped (by decide)
    (by decide) (by decide)

/-! ## The mirroring helper: closed form -/

/-- C14: for every square `0 ≤ sq < 90`, `mirror_square sq` is
`(9 - sq div 9) * 9 + sq mod 9`; it keeps the file, reflects the rank to `9 - rank`, and
is again a square in `[0, 90)`. -/
theorem mirror_square_closed_form (sq : Int) (h0 : 0 ≤ sq) (h90 : sq < 90) :
    mirror_square sq = (9 - sq / 9) * 9 + sq % 9
    ∧ mirror_square sq % 9 = sq % 9
    ∧ mirror_square sq / 9 = 9 - sq / 9
    ∧ 0 ≤ mirror_square sq ∧ mirror_square sq < 90 := by
  have heq := mirror_square_eq sq h0
  have hr := mirror_square_range sq h0 h90
  refine ⟨heq, ?_, ?_, hr.1, hr.2⟩
  · rw [heq]; omega
  · rw [heq]; omega

theorem mirror_square_closed_form_witness :
    mirror_square 31 = (9 - 31 / 9) * 9 + 31 % 9
    ∧ mirror_square 31 % 9 = 31 % 9
    ∧ mirror_square 31 / 9 = 9 - 31 / 9
    ∧ 0 ≤ mirror_square 31 ∧ mirror_square 31 < 90 :=
  mirror_square_closed_form 31 (by decide) (by decide)

/-! ## The tables under rank mirroring -/

set_option maxRecDepth 100000 in
theorem PST_mirror_symmetric_tables :
    ∀ sq : Nat, sq < 90 →
      PST .ROOK (mirror_square (sq : Int)) = PST .ROOK (sq : Int)
      ∧ PST .CANNON (mirror_square (sq : Int)) = PST .CANNON (sq : Int)
      ∧ PST .PAWN (mirror_square (sq : Int)) = PST .PAWN (sq : Int)
      ∧ PST .KNIGHT (mirror_square (sq : Int)) = PST .KNIGHT (sq : Int)
      ∧ PST .KING (mirror_square (sq : Int)) = PST .KING (sq : Int) := by
  decide

/-- C20: the rook, cannon, pawn, knight and king tables give a square and its rank mirror
the same value, for every square in `[0, 90)` (so the pawn table values rank `r` and rank
`9 - r` alike); the advisor and the bishop table each have a square where the two values
differ, and they are the only tables that do. -/
theorem tables_rank_mirror_symmetry :
    (∀ pt ∈ [PieceType.ROOK, PieceType.CANNON, PieceType.PAWN, PieceType.KNIGHT,
        PieceType.KING],
      ∀ sq : Int, 0 ≤ sq → sq < 90 → PST pt (mirror_square sq) = PST pt sq)
    ∧ (∀ r f : Int, 0 ≤ r → r ≤ 9 → 0 ≤ f → f ≤ 8 →
        PST .PAWN ((9 - r) * 9 + f) = PST .PAWN (r * 9 + f))
    ∧ PST .ADVISOR (mirror_square 76) ≠ PST .ADVISOR 76
    ∧ PST .BISHOP (mirror_square 65) ≠ PST .BISHOP 65
    ∧ (∀ pt : PieceType,
        (∃ sq : Int, 0 ≤ sq ∧ sq < 90 ∧ PST pt (mirror_square sq) ≠ PST pt sq)
          ↔ pt = .ADVISOR ∨ pt = .BISHOP) := by
  have key : ∀ sq : Int, 0 ≤ sq → sq < 90 →
      PST .ROOK (mirror_square sq) = PST .ROOK sq
      ∧ PST .CANNON (mirror_square sq) = PST .CANNON sq
      ∧ PST .PAWN (mirror_square sq) = PST .PAWN sq
      ∧ PST .KNIGHT (mirror_square sq) = PST .KNIGHT sq
      ∧ PST .KING (mirror_square sq) = PST .KING sq := by
    intro sq h0 h90
    have h := PST_mirror_symmetric_tables sq.toNat (by omega)
    rwa [Int.toNat_of_nonneg h0] at h
  have hadv : PST .ADVISOR (mirror_square 76) ≠ PST .ADVISOR 76 := by decide
  have hbis : PST .BISHOP (mirror_square 65) ≠ PST .BISHOP 65 := by decide
  refine ⟨?_, ?_, hadv, hbis, ?_⟩
  · intro pt hpt sq h0 h90
    have h := key sq h0 h90
    simp only [List.mem_cons, List.mem_singleton, List.not_mem_nil, or_false] at hpt
    rcases hpt with rfl | rfl | rfl | rfl | rfl
    · exact h.1
    · exact h.2.1
    · exact h.2.2.1
    · exact h.2.2.2.1
    · exact h.2.2.2.2
  · intro r f hr0 hr9 hf0 hf8
    have h0 : 0 ≤ r * 9 + f := by omega
    have h90 : r * 9 + f < 90 := by omega
    have h := (key (r * 9 + f) h0 h90).2.2.1
    rw [mirror_square_eq _ h0] at h
    have e : (9 - (r * 9 + f) / 9) * 9 + (r * 9 + f) % 9 = (9 - r) * 9 + f := by omega
    rwa [e] at h
  · intro pt
    constructor
    · rintro ⟨sq, h0, h90, hne⟩
      have h := key sq h0 h90
      cases pt
      · exact absurd rfl hne
      · exact absurd h.1 hne
      · exact Or.inl rfl
      · exact absurd h.2.1 hne
      · exact absurd h.2.2.1 hne
      · exact absurd h.2.2.2.1 hne
      · exact Or.inr rfl
      · exact absurd h.2.2.2.2 hne
    · rintro (rfl | rfl)
      · exact ⟨76, by decide, by decide, hadv⟩
      · exact ⟨65, by decide, by decide, hbis⟩

theorem tables_rank_mirror_symmetry_witness :
    PST .PAWN (mirror_square 30) = PST .PAWN 30
    ∧ PST .PAWN ((9 - 3) * 9 + 4) = PST .PAWN (3 * 9 + 4) :=
  ⟨tables_rank_mirror_symmetry.1 .PAWN (by decide) 30 (by decide) (by decide),
   tables_rank_mirror_symmetry.2.1 3 4 (by decide) (by decide) (by decide) (by decide)⟩

/-! ## The placement part of the king-safety bonus -/

theorem evaluate_king_safety_split (pos : Position) :
    evaluate_king_safety pos
      = (red_safety pos + (if 1 ≤ popcount (pos.pieces .WHITE .ADVISOR) then 15 else 0))
        - (black_safety pos
            + (if 1 ≤ popcount (pos.pieces .BLACK .ADVISOR) then 15 else 0)) := by
  simp only [evaluate_king_safety, red_safety, black_safety, ge_iff_le]
  split_ifs <;> ring

theorem placement_formula (k anchor : Int) (h0 : 0 ≤ k) :
    ((2 - std_abs (Int.tmod k FILE_NB - FILE_E)) + (1 - std_abs (Int.tdiv k FILE_NB - anchor)))
        * 10
      = 10 * ((2 - |k % 9 - 4|) + (1 - |k / 9 - anchor|)) := by
  simp only [std_abs_eq_abs, FILE_NB, FILE_E]
  rw [Int.tdiv_eq_ediv h0 (by decide), Int.tmod_eq_emod h0 (by decide)]
  ring

theorem placement_bound (a b : Int) :
    10 * ((2 - |a|) + (1 - |b|)) = 30 - 10 * (|a| + |b|)
    ∧ 10 * ((2 - |a|) + (1 - |b|)) ≤ 30
    ∧ (10 * ((2 - |a|) + (1 - |b|)) = 30 ↔ a = 0 ∧ b = 0) := by
  have ha := abs_nonneg a
  have hb := abs_nonneg b
  refine ⟨by ring, by omega, ?_⟩
  constructor
  · intro h
    have ha0 : |a| = 0 := by omega
    have hb0 : |b| = 0 := by omega
    exact ⟨abs_eq_zero.1 ha0, abs_eq_zero.1 hb0⟩
  · rintro ⟨rfl, rfl⟩
    simp

/-- C19: for king squares in `[0, 90)`, the placement part of Red's king-safety bonus is
`10 * ((2 - |file - 4|) + (1 - |rank - 8|))`, which is 30 minus 10 for each step of file
or rank distance from file 4, rank 8: it is at most 30, and 30 exactly on that square;
the same holds for Black with file 4, rank 1.  These two parts are what
`evaluate_king_safety` adds for Red and subtracts for Black next to the advisor bonus. -/
theorem king_placement_maximal_at_palace_centre (pos : Position) (hk : pos.KingsOnBoard) :
    evaluate_king_safety pos
        = (red_safety pos + (if 1 ≤ piece_count pos .WHITE .ADVISOR then 15 else 0))
          - (black_safety pos + (if 1 ≤ piece_count pos .BLACK .ADVISOR then 15 else 0))
    ∧ red_safety pos
        = 10 * ((2 - |pos.king_square .WHITE % 9 - 4|)
            + (1 - |pos.king_square .WHITE / 9 - 8|))
    ∧ red_safety pos
        = 30 - 10 * (|pos.king_square .WHITE % 9 - 4| + |pos.king_square .WHITE / 9 - 8|)
    ∧ red_safety pos ≤ 30
    ∧ (red_safety pos = 30
        ↔ pos.king_square .WHITE % 9 = 4 ∧ pos.king_square .WHITE / 9 = 8)
    ∧ black_safety pos
        = 10 * ((2 - |pos.king_square .BLACK % 9 - 4|)
            + (1 - |pos.king_square .BLACK / 9 - 1|))
    ∧ black_safety pos
        = 30 - 10 * (|pos.king_square .BLACK % 9 - 4| + |pos.king_square .BLACK / 9 - 1|)
    ∧ black_safety pos ≤ 30
    ∧ (black_safety pos = 30
        ↔ pos.king_square .BLACK % 9 = 4 ∧ pos.king_square .BLACK / 9 = 1) := by
  have hr : red_safety pos
      = 10 * ((2 - |pos.king_square .WHITE % 9 - 4|)
          + (1 - |pos.king_square .WHITE / 9 - 8|)) :=
    placement_formula (pos.king_square .WHITE) 8 (hk .WHITE).1
  have hb : black_safety pos
      = 10 * ((2 - |pos.king_square .BLACK % 9 - 4|)
          + (1 - |pos.king_square .BLACK / 9 - 1|)) :=
    placement_formula (pos.king_square .BLACK) 1 (hk .BLACK).1
  have br := placement_bound (pos.king_square .WHITE % 9 - 4) (pos.king_square .WHITE / 9 - 8)
  have bb := placement_bound (pos.king_square .BLACK % 9 - 4) (pos.king_square .BLACK / 9 - 1)
  refine ⟨evaluate_king_safety_split pos, hr, ?_, ?_, ?_, hb, ?_, ?_, ?_⟩
  · rw [hr]; exact br.1
  · rw [hr]; exact br.2.1
  · rw [hr, br.2.2]
    constructor
    · rintro ⟨h1, h2⟩; exact ⟨by omega, by omega⟩
    · rintro ⟨h1, h2⟩; exact ⟨by omega, by omega⟩
  · rw [hb]; exact bb.1
  · rw [hb]; exact bb.2.1
  · rw [hb, bb.2.2]
    constructor
    · rintro ⟨h1, h2⟩; exact ⟨by omega, by omega⟩
    · rintro ⟨h1, h2⟩; exact ⟨by omega, by omega⟩

theorem king_placement_maximal_at_palace_centre_witness :
    red_safety sample_position
        = 30 - 10 * (|sample_position.king_square .WHITE % 9 - 4|
            + |sample_position.king_square .WHITE / 9 - 8|)
    ∧ red_safety sample_position ≤ 30 :=
  ⟨(king_placement_maximal_at_palace_centre sample_position (by decide)).2.2.1,
   (king_placement_maximal_at_palace_centre sample_position (by decide)).2.2.2.1⟩

/-! ## The clamp: symmetry and monotonicity -/

theorem std_clamp_neg (v lo hi : Int) (hsym : lo = -hi) (hle : lo ≤ hi) :
    std_clamp (-v) lo hi = -(std_clamp v lo hi) := by
  unfold std_clamp
  split_ifs <;> omega

theorem std_clamp_mono (v w lo hi : Int) (hle : lo ≤ hi) (hvw : v ≤ w) :
    std_clamp v lo hi ≤ std_clamp w lo hi := by
  unfold std_clamp
  split_ifs <;> omega

/-! ## Swapping the side to move -/

theorem mover_total_swap_side (T : Types) (pos : Position) (hc : pos.checkers = 0)
    (pst : Int) :
    mover_total T (swap_side_to_move pos) pst = -(mover_total T pos pst) := by
  have ht : total_of T (swap_side_to_move pos) pst = total_of T pos pst := by
    have h1 : evaluate_tactics (swap_side_to_move pos) = 0 := by
      rw [evaluate_tactics_formula]
      simp [swap_side_to_move, hc]
    have h2 : evaluate_tactics pos = 0 := by
      rw [evaluate_tactics_formula]
      simp [hc]
    simp only [total_of, h1, h2]
    rfl
  simp only [mover_total, ht]
  show (if pos.side_to_move.opposite = Color.WHITE then _ else _) = _
  cases pos.side_to_move <;> simp [Color.opposite]

/-- C16: with `VALUE_MATED_IN_MAX_PLY = -VALUE_MATE_IN_MAX_PLY` (and the two clamp bounds
in order, as `std::clamp` requires), for every position with empty `checkers` the
position with only the side to move swapped gets the negated score; the scores exist when
the occupied squares are on the board. -/
theorem evaluate_swap_side_to_move (T : Types) (pos : Position)
    (hsym : T.VALUE_MATED_IN_MAX_PLY = -T.VALUE_MATE_IN_MAX_PLY)
    (hbounds : T.VALUE_MATED_IN_MAX_PLY + 1 ≤ T.VALUE_MATE_IN_MAX_PLY - 1)
    (hc : pos.checkers = 0) :
    evaluate T (swap_side_to_move pos) = (evaluate T pos).map (fun v => -v)
    ∧ (pos.OnBoard → ∃ v, evaluate T pos = some v
        ∧ evaluate T (swap_side_to_move pos) = some (-v)) := by
  have hpst : evaluate_pst (swap_side_to_move pos) = evaluate_pst pos := rfl
  have key : evaluate T (swap_side_to_move pos) = (evaluate T pos).map (fun v => -v) := by
    rw [evaluate_eq_map, evaluate_eq_map, hpst, Option.map_map]
    congr 1
    funext pst
    show std_clamp (mover_total T (swap_side_to_move pos) pst) _ _
      = -(std_clamp (mover_total T pos pst) _ _)
    rw [mover_total_swap_side T pos hc pst]
    exact std_clamp_neg _ _ _ (by omega) hbounds
  refine ⟨key, ?_⟩
  intro hon
  have hs : evaluate T pos
      = some (std_clamp (mover_total T pos ((pieceTypeLoop.map (pst_term pos)).sum))
          (T.VALUE_MATED_IN_MAX_PLY + 1) (T.VALUE_MATE_IN_MAX_PLY - 1)) := by
    rw [evaluate_eq_map, evaluate_pst_eq pos hon]
    rfl
  refine ⟨_, hs, ?_⟩
  rw [key, hs]
  rfl

theorem evaluate_swap_side_to_move_witness :
    evaluate sample_types (swap_side_to_move sample_position)
        = (evaluate sample_types sample_position).map (fun v => -v)
    ∧ ∃ v, evaluate sample_types sample_position = some v
        ∧ evaluate sample_types (swap_side_to_move sample_position) = some (-v) :=
  ⟨(evaluate_swap_side_to_move sample_types sample_position (by decide) (by decide)
      (by decide)).1,
   (evaluate_swap_side_to_move sample_types sample_position (by decide) (by decide)
      (by decide)).2 (by decide)⟩

/-! ## Check and the mover's score -/

theorem mover_total_in_check (T : Types) (p q : Position) (hpieces : q.pieces = p.pieces)
    (hking : q.king_square = p.king_square) (hside : q.side_to_move = p.side_to_move)
    (hp : p.checkers = 0) (hq : q.checkers ≠ 0) (pst : Int) :
    mover_total T q pst = mover_total T p pst - 50 := by
  obtain ⟨pp, pk, ps, pc⟩ := p
  obtain ⟨qp, qk, qs, qc⟩ := q
  simp only at hpieces hking hside hp hq
  subst hpieces hking hside hp
  simp only [mover_total, total_of, evaluate_tactics_formula, evaluate_material,
    evaluate_mobility, evaluate_king_safety, hq, if_false, if_true]
  cases qs <;> simp <;> ring

/-- C17: of two positions with the same pieces, king squares and side to move, one with
empty and one with non-empty `checkers`, the in-check position never scores higher than
the other, whichever side is to move (the clamp bounds being in order, as `std::clamp`
requires); and when neither score is clamped the in-check score is exactly 50 lower.
Both scores exist when the occupied squares are on the board. -/
theorem check_never_helps_mover (T : Types) (p q : Position) (hpieces : q.pieces = p.pieces)
    (hking : q.king_square = p.king_square) (hside : q.side_to_move = p.side_to_move)
    (hp : p.checkers = 0) (hq : q.checkers ≠ 0)
    (hbounds : T.VALUE_MATED_IN_MAX_PLY + 1 ≤ T.VALUE_MATE_IN_MAX_PLY - 1) :
    (∀ a b, evaluate T p = some a → evaluate T q = some b → b ≤ a)
    ∧ (p.OnBoard → ∃ a b, evaluate T p = some a ∧ evaluate T q = some b ∧ b ≤ a)
    ∧ (∀ pst, evaluate_pst p = some pst →
        T.VALUE_MATED_IN_MAX_PLY + 1 ≤ mover_total T q pst →
        mover_total T p pst ≤ T.VALUE_MATE_IN_MAX_PLY - 1 →
        evaluate T p = some (mover_total T p pst)
          ∧ evaluate T q = some (mover_total T p pst - 50)) := by
  have hshift := mover_total_in_check T p q hpieces hking hside hp hq
  have hpst : evaluate_pst q = evaluate_pst p := by
    obtain ⟨pp, pk, ps, pc⟩ := p
    obtain ⟨qp, qk, qs, qc⟩ := q
    simp only at hpieces
    subst hpieces
    rfl
  have hle : ∀ a b, evaluate T p = some a → evaluate T q = some b → b ≤ a := by
    intro a b ha hb
    rw [evaluate_eq_map] at ha hb
    rw [hpst] at hb
    cases hpp : evaluate_pst p with
    | none => rw [hpp] at ha; exact absurd ha (by simp)
    | some pst =>
      rw [hpp] at ha hb
      have ha2 : std_clamp (mover_total T p pst) (T.VALUE_MATED_IN_MAX_PLY + 1)
          (T.VALUE_MATE_IN_MAX_PLY - 1) = a := Option.some.inj ha
      have hb2 : std_clamp (mover_total T q pst) (T.VALUE_MATED_IN_MAX_PLY + 1)
          (T.VALUE_MATE_IN_MAX_PLY - 1) = b := Option.some.inj hb
      rw [← ha2, ← hb2, hshift pst]
      exact std_clamp_mono _ _ _ _ hbounds (by omega)
  refine ⟨hle, ?_, ?_⟩
  · intro hon
    have hpp := evaluate_pst_eq p hon
    have ha : evaluate T p
        = some (std_clamp (mover_total T p ((pieceTypeLoop.map (pst_term p)).sum))
            (T.VALUE_MATED_IN_MAX_PLY + 1) (T.VALUE_MATE_IN_MAX_PLY - 1)) := by
      rw [evaluate_eq_map, hpp]
      rfl
    have hb : evaluate T q
        = some (std_clamp (mover_total T q ((pieceTypeLoop.map (pst_term p)).sum))
            (T.VALUE_MATED_IN_MAX_PLY + 1) (T.VALUE_MATE_IN_MAX_PLY - 1)) := by
      rw [evaluate_eq_map, hpst, hpp]
      rfl
    exact ⟨_, _, ha, hb, hle _ _ ha hb⟩
  · intro pst hpp hlo hhi
    have hs := hshift pst
    constructor
    · rw [evaluate_eq_map, hpp]
      show some (std_clamp (mover_total T p pst) _ _) = _
      rw [std_clamp_inside _ _ _ (by omega) hhi]
    · rw [evaluate_eq_map, hpst, hpp]
      show some (std_clamp (mover_total T q pst) _ _) = _
      rw [std_clamp_inside _ _ _ hlo (by omega), hs]

theorem check_never_helps_mover_witness :
    (∃ a b, evaluate sample_types sample_position = some a
      ∧ evaluate sample_types sample_position_in_check = some b ∧ b ≤ a)
    ∧ evaluate sample_types sample_position_in_check
        = some (mover_total sample_types sample_position 5 - 50) :=
  ⟨(check_never_helps_mover sample_types sample_position sample_position_in_check rfl rfl
      rfl (by decide) (by decide) (by decide)).2.1 (by decide),
   ((check_never_helps_mover sample_types sample_position sample_position_in_check rfl rfl
      rfl (by decide) (by decide) (by decide)).2.2 5 (by decide) (by decide)
      (by decide)).2⟩

/-! ## Dependence on the read interface only -/

theorem foldlM_congr_mem {α : Type} (f g : Int → α → Option Int) :
    ∀ (l : List α) (s : Int), (∀ x ∈ l, ∀ acc, f acc x = g acc x) →
      l.foldlM f s = l.foldlM g s := by
  intro l
  induction l with
  | nil => intro s _; rfl
  | cons a l ih =>
    intro s h
    rw [List.foldlM_cons, List.foldlM_cons, h a (List.mem_cons_self a l) s]
    congr 1
    funext s2
    exact ih s2 (fun x hx => h x (List.mem_cons_of_mem a hx))

theorem evaluate_pst_congr (p q : Position)
    (hpieces : ∀ (c : Color), ∀ pt ∈ pieceTypeLoop, q.pieces c pt = p.pieces c pt) :
    evaluate_pst q = evaluate_pst p := by
  unfold evaluate_pst
  apply foldlM_congr_mem
  intro pt hpt acc
  simp only [evaluate_pst_body, hpieces .WHITE pt hpt, hpieces .BLACK pt hpt]

/-- C15: two positions that agree on `pieces` for both sides and the seven piece types,
on both king squares, on the side to move and on whether `checkers` is empty get the same
result from `evaluate`; the evaluator being a function of the position, evaluating a
position again gives the same score. -/
theorem evaluate_depends_on_read_interface (T : Types) (p q : Position)
    (hpieces : ∀ (c : Color), ∀ pt ∈ pieceTypeLoop, q.pieces c pt = p.pieces c pt)
    (hking : ∀ c : Color, q.king_square c = p.king_square c)
    (hside : q.side_to_move = p.side_to_move)
    (hcheck : q.checkers = 0 ↔ p.checkers = 0) :
    evaluate T q = evaluate T p := by
  have hW : ∀ pt ∈ pieceTypeLoop, q.pieces .WHITE pt = p.pieces .WHITE pt := hpieces .WHITE
  have hB : ∀ pt ∈ pieceTypeLoop, q.pieces .BLACK pt = p.pieces .BLACK pt := hpieces .BLACK
  simp only [pieceTypeLoop, List.mem_cons, List.mem_singleton, List.not_mem_nil, or_false,
    forall_eq_or_imp, forall_eq] at hW hB
  obtain ⟨w1, w2, w3, w4, w5, w6, w7⟩ := hW
  obtain ⟨b1, b2, b3, b4, b5, b6, b7⟩ := hB
  have hmat : evaluate_material T q = evaluate_material T p := by
    rw [evaluate_material_formula, evaluate_material_formula,
      w1, w2, w3, w4, w5, w6, w7, b1, b2, b3, b4, b5, b6, b7]
  have hmob : evaluate_mobility q = evaluate_mobility p := by
    rw [evaluate_mobility_formula, evaluate_mobility_formula,
      w1, w2, w3, w4, w5, w6, w7, b1, b2, b3, b4, b5, b6, b7]
  have hks : evaluate_king_safety q = evaluate_king_safety p := by
    simp only [evaluate_king_safety, hking, w2, b2]
  have htac : evaluate_tactics q = evaluate_tactics p := by
    rw [evaluate_tactics_formula, evaluate_tactics_formula, hside]
    by_cases h : p.checkers = 0
    · rw [if_pos h, if_pos (hcheck.2 h)]
    · rw [if_neg h, if_neg (fun h2 => h (hcheck.1 h2))]
  simp only [evaluate, red_total, evaluate_pst_congr p q hpieces, hmat, hmob, hks, htac,
    hside]

theorem evaluate_depends_on_read_interface_witness :
    evaluate sample_types sample_position_other_view
      = evaluate sample_types sample_position_in_check :=
  evaluate_depends_on_read_interface sample_types sample_position_in_check
    sample_position_other_view (by decide) (by decide) (by decide) (by decide)

/-! ## Enumeration order -/

theorem foldlM_perm (body : Int → Nat → Option Int)
    (hcomm : ∀ s x y, (body s x).bind (fun s2 => body s2 y)
      = (body s y).bind (fun s2 => body s2 x))
    {l1 l2 : List Nat} (h : l1.Perm l2) : ∀ s : Int, l1.foldlM body s = l2.foldlM body s := by
  induction h with
  | nil => intro s; rfl
  | cons x _ ih =>
    intro s
    rw [List.foldlM_cons, List.foldlM_cons]
    congr 1
    funext s2
    exact ih s2
  | swap x y l =>
    intro s
    simp only [List.foldlM_cons]
    show (body s y).bind (fun s2 => (body s2 x).bind (fun s3 => l.foldlM body s3))
      = (body s x).bind (fun s2 => (body s2 y).bind (fun s3 => l.foldlM body s3))
    have h1 := hcomm s y x
    cases hy : body s y with
    | none =>
      rw [hy] at h1
      cases hx : body s x with
      | none => rfl
      | some b =>
        rw [hx] at h1
        simp only [Option.none_bind, Option.some_bind] at h1 ⊢
        rw [← h1]
        rfl
    | some a =>
      rw [hy] at h1
      cases hx : body s x with
      | none =>
        rw [hx] at h1
        simp only [Option.none_bind, Option.some_bind] at h1 ⊢
        rw [h1]
        rfl
      | some b =>
        rw [hx] at h1
        simp only [Option.some_bind] at h1 ⊢
        rw [h1]
  | trans _ _ ih1 ih2 =>
    intro s
    rw [ih1 s, ih2 s]

theorem add_body_comm (f : Nat → Option Int) (s : Int) (x y : Nat) :
    ((f x).map (fun v => s + v)).bind (fun s2 => (f y).map (fun v => s2 + v))
      = ((f y).map (fun v => s + v)).bind (fun s2 => (f x).map (fun v => s2 + v)) := by
  cases f x <;> cases f y <;> simp
  omega

theorem sub_body_comm (f : Nat → Option Int) (s : Int) (x y : Nat) :
    ((f x).map (fun v => s - v)).bind (fun s2 => (f y).map (fun v => s2 - v))
      = ((f y).map (fun v => s - v)).bind (fun s2 => (f x).map (fun v => s2 - v)) := by
  cases f x <;> cases f y <;> simp
  omega

theorem evaluate_pst_body_in_order_eq (pos : Position) (order : Color → PieceType → List Nat)
    (horder : ∀ (c : Color) (pt : PieceType), (order c pt).Perm (squaresOf (pos.pieces c pt)))
    (pst_score : Int) (pt : PieceType) :
    evaluate_pst_body_in_order order pst_score pt = evaluate_pst_body pos pst_score pt := by
  unfold evaluate_pst_body_in_order evaluate_pst_body
  cases PIECE_SQUARE_TABLES pt with
  | none => rfl
  | some t =>
    simp only [whileBits_eq_foldlM]
    rw [foldlM_perm _ (add_body_comm (fun (sq : Nat) => tableAt t (sq : Int)))
      (horder .WHITE pt) pst_score]
    cases (squaresOf (pos.pieces .WHITE pt)).foldlM
        (fun (pst_score : Int) (sq : Nat) =>
          (tableAt t (sq : Int)).map (fun v => pst_score + v)) pst_score with
    | none => rfl
    | some s =>
      exact foldlM_perm _
        (sub_body_comm (fun (sq : Nat) => tableAt t (mirror_square (sq : Int))))
        (horder .BLACK pt) s

/-- C13: the squares of an occupancy set come out of the `pop_lsb` loop least first
(`squaresOf`); if the squares of every occupancy set are visited in any other order, a
permutation of that sequence, the positional evaluator returns the same result, for
every position. -/
theorem evaluate_pst_order_independent (pos : Position)
    (order : Color → PieceType → List Nat)
    (horder : ∀ (c : Color) (pt : PieceType), (order c pt).Perm (squaresOf (pos.pieces c pt))) :
    evaluate_pst_in_order order = evaluate_pst pos
    ∧ (∀ b : Bitboard, b ≠ 0 →
        squaresOf b = ((pop_lsb b).1).toNat :: squaresOf (pop_lsb b).2)
    ∧ squaresOf 0 = [] := by
  refine ⟨?_, ?_, squaresOf_zero⟩
  · unfold evaluate_pst_in_order evaluate_pst
    apply foldlM_congr_mem
    intro pt _ acc
    exact evaluate_pst_body_in_order_eq pos order horder acc pt
  · intro b hb
    exact squaresOf_pop b hb

theorem evaluate_pst_order_independent_witness :
    evaluate_pst_in_order (fun c pt => (squaresOf (sample_position.pieces c pt)).reverse)
      = evaluate_pst sample_position :=
  (evaluate_pst_order_independent sample_position
    (fun c pt => (squaresOf (sample_position.pieces c pt)).reverse)
    (fun c pt => List.reverse_perm (squaresOf (sample_position.pieces c pt)))).1

/-! ## Taking a piece off the board -/

theorem squaresOf_xor_perm (b sq : Nat) (h : sq ∈ squaresOf b) :
    (squaresOf (b ^^^ 2 ^ sq)).Perm ((squaresOf b).erase sq) := by
  have d1 := squaresOf_nodup (b ^^^ 2 ^ sq)
  have d2 : ((squaresOf b).erase sq).Nodup := (squaresOf_nodup b).erase sq
  rw [List.perm_ext_iff_of_nodup d1 d2]
  intro i
  rw [(squaresOf_nodup b).mem_erase_iff, mem_squaresOf, mem_squaresOf, Nat.testBit_xor,
    Nat.testBit_two_pow]
  have hb : b.testBit sq = true := (mem_squaresOf b sq).1 h
  by_cases hi : sq = i
  · subst hi
    simp [hb]
  · have hi2 : i ≠ sq := fun e => hi e.symm
    simp [hi, hi2]

theorem popcount_xor (b sq : Nat) (h : sq ∈ squaresOf b) :
    popcount (b ^^^ 2 ^ sq) = popcount b - 1 := by
  have hlen := (squaresOf_xor_perm b sq h).length_eq
  rw [List.length_erase_of_mem h] at hlen
  have hpos : 0 < (squaresOf b).length := List.length_pos_of_mem h
  simp only [popcount, hlen]
  omega

/-- C12: for every position, every one of the seven piece types `pt` and every square
holding a Red piece of that type, taking that piece off the board lowers
`evaluate_material` by exactly `PieceValue[pt]`; taking a Black piece off raises it by
exactly `PieceValue[pt]`; whatever the square and the other pieces are. -/
theorem evaluate_material_remove_piece (T : Types) (pos : Position) (c : Color)
    (pt : PieceType) (sq : Nat) (hpt : pt ∈ pieceTypeLoop)
    (hocc : sq ∈ squaresOf (pos.pieces c pt)) :
    (c = .WHITE →
      evaluate_material T (remove_piece pos c pt sq)
        = evaluate_material T pos - T.PieceValue pt)
    ∧ (c = .BLACK →
      evaluate_material T (remove_piece pos c pt sq)
        = evaluate_material T pos + T.PieceValue pt) := by
  have hcount := popcount_xor (pos.pieces c pt) sq hocc
  simp only [pieceTypeLoop, List.mem_cons, List.mem_singleton, List.not_mem_nil,
    or_false] at hpt
  constructor
  · rintro rfl
    rw [evaluate_material_formula, evaluate_material_formula]
    rcases hpt with rfl | rfl | rfl | rfl | rfl | rfl | rfl <;>
      simp [remove_piece, hcount] <;> ring
  · rintro rfl
    rw [evaluate_material_formula, evaluate_material_formula]
    rcases hpt with rfl | rfl | rfl | rfl | rfl | rfl | rfl <;>
      simp [remove_piece, hcount] <;> ring

theorem evaluate_material_remove_piece_witness :
    evaluate_material sample_types (remove_piece sample_position .WHITE .ROOK 89)
        = evaluate_material sample_types sample_position
          - sample_types.PieceValue .ROOK
    ∧ evaluate_material sample_types (remove_piece sample_position .BLACK .PAWN 27)
        = evaluate_material sample_types sample_position
          + sample_types.PieceValue .PAWN :=
  ⟨(evaluate_material_remove_piece sample_types sample_position .WHITE .ROOK 89
      (by decide) (by decide)).1 rfl,
   (evaluate_material_remove_piece sample_types sample_position .BLACK .PAWN 27
      (by decide) (by decide)).2 rfl⟩

/-! ## The guard-presence scenario -/

theorem squaresOf_two_pow (sq : Nat) : squaresOf (2 ^ sq) = [sq] := by
  rw [← List.perm_singleton, List.perm_ext_iff_of_nodup (squaresOf_nodup _)
    (List.nodup_singleton sq)]
  intro i
  rw [mem_squaresOf, Nat.testBit_two_pow, List.mem_singleton]
  simp [eq_comm]

/-- C11, as stated, fails: with Red to move and no score clamped, the sample position
without Red advisors scores -367; with one Red advisor on square 84 it scores -110, which
is 257 more and not 15 more; with the advisor on square 76 instead it scores -100, so the
difference depends on the square. -/
theorem guard_presence_not_fifteen :
    sample_position_no_advisor.side_to_move = .WHITE
    ∧ evaluate sample_types sample_position_no_advisor = some (-367)
    ∧ evaluate sample_types sample_position_one_advisor = some (-110)
    ∧ evaluate sample_types sample_position_advisor_centre = some (-100)
    ∧ (-110 : Int) - (-367) ≠ 15
    ∧ (-110 : Int) - (-367) ≠ (-100) - (-367)
    ∧ sample_types.VALUE_MATED_IN_MAX_PLY + 1 ≤ -367
    ∧ -100 ≤ sample_types.VALUE_MATE_IN_MAX_PLY - 1 := by
  decide

theorem guard_presence_components (T : Types) (p q : Position) (sq : Nat) (_hsq : sq < 90)
    (hnone : p.pieces .WHITE .ADVISOR = 0) (hone : q.pieces .WHITE .ADVISOR = 2 ^ sq)
    (hrest : ∀ (c : Color) (pt : PieceType), ¬(c = .WHITE ∧ pt = .ADVISOR) →
      q.pieces c pt = p.pieces c pt)
    (hking : ∀ c : Color, q.king_square c = p.king_square c)
    (hside : q.side_to_move = p.side_to_move) (hcheck : q.checkers = p.checkers) :
    evaluate_material T q = evaluate_material T p + T.PieceValue .ADVISOR
    ∧ evaluate_mobility q = evaluate_mobility p + 12
    ∧ evaluate_king_safety q = evaluate_king_safety p + 15
    ∧ evaluate_tactics q = evaluate_tactics p
    ∧ (∀ pt, pst_term q pt
        = pst_term p pt + (if pt = .ADVISOR then PST .ADVISOR (sq : Int) else 0)) := by
  have w1 := hrest .WHITE .ROOK (by decide)
  have w3 := hrest .WHITE .CANNON (by decide)
  have w4 := hrest .WHITE .PAWN (by decide)
  have w5 := hrest .WHITE .KNIGHT (by decide)
  have w6 := hrest .WHITE .BISHOP (by decide)
  have w7 := hrest .WHITE .KING (by decide)
  have b1 := hrest .BLACK .ROOK (by decide)
  have b2 := hrest .BLACK .ADVISOR (by decide)
  have b3 := hrest .BLACK .CANNON (by decide)
  have b4 := hrest .BLACK .PAWN (by decide)
  have b5 := hrest .BLACK .KNIGHT (by decide)
  have b6 := hrest .BLACK .BISHOP (by decide)
  have b7 := hrest .BLACK .KING (by decide)
  have hq1 : popcount (q.pieces .WHITE .ADVISOR) = 1 := by
    simp [popcount, hone, squaresOf_two_pow]
  have hp0 : popcount (p.pieces .WHITE .ADVISOR) = 0 := by
    simp [popcount, hnone, squaresOf_zero]
  refine ⟨?_, ?_, ?_, ?_, ?_⟩
  · rw [evaluate_material_formula, evaluate_material_formula,
      w1, w3, w4, w5, w6, w7, b1, b2, b3, b4, b5, b6, b7, hq1, hp0]
    ring
  · rw [evaluate_mobility_formula, evaluate_mobility_formula,
      w1, w3, w4, w5, w6, w7, b1, b2, b3, b4, b5, b6, b7, hq1, hp0]
    ring
  · rw [evaluate_king_safety_split, evaluate_king_safety_split, b2, hq1, hp0]
    simp only [red_safety, black_safety, hking]
    simp
    ring
  · rw [evaluate_tactics_formula, evaluate_tactics_formula, hside, hcheck]
  · intro pt
    by_cases hpt : pt = .ADVISOR
    · subst hpt
      simp only [pst_term, hone, hnone, b2, squaresOf_two_pow, squaresOf_zero, if_true,
        List.map_cons, List.map_nil, List.sum_cons, List.sum_nil]
      ring
    · have hw := hrest .WHITE pt (fun h => hpt h.2)
      have hb := hrest .BLACK pt (by simp)
      simp only [pst_term, hw, hb, hpt, if_false, add_zero]

/-- C11, amended: of two positions that differ only in Red having no advisor in the one
and exactly one advisor, on a square `sq` in `[0, 90)`, in the other, the king-safety
component differs by exactly the guard bonus 15 whatever the square; the Red-perspective
total, and with Red to move and neither score clamped the score of `evaluate`, differs by
`15 + PieceValue[ADVISOR] + 12 + PST_ADVISOR[sq]`, the advisor being counted by the
material, mobility and positional components as well. -/
theorem guard_presence_difference (T : Types) (p q : Position) (sq : Nat) (hsq : sq < 90)
    (hon : p.OnBoard)
    (hnone : p.pieces .WHITE .ADVISOR = 0) (hone : q.pieces .WHITE .ADVISOR = 2 ^ sq)
    (hrest : ∀ (c : Color) (pt : PieceType), ¬(c = .WHITE ∧ pt = .ADVISOR) →
      q.pieces c pt = p.pieces c pt)
    (hking : ∀ c : Color, q.king_square c = p.king_square c)
    (hside : q.side_to_move = p.side_to_move) (hcheck : q.checkers = p.checkers) :
    evaluate_king_safety q = evaluate_king_safety p + 15
    ∧ ∃ t, red_total T p = some t
      ∧ red_total T q
          = some (t + (15 + T.PieceValue .ADVISOR + 12 + PST .ADVISOR (sq : Int)))
      ∧ (p.side_to_move = .WHITE →
          T.VALUE_MATED_IN_MAX_PLY + 1 ≤ t → t ≤ T.VALUE_MATE_IN_MAX_PLY - 1 →
          T.VALUE_MATED_IN_MAX_PLY + 1
            ≤ t + (15 + T.PieceValue .ADVISOR + 12 + PST .ADVISOR (sq : Int)) →
          t + (15 + T.PieceValue .ADVISOR + 12 + PST .ADVISOR (sq : Int))
            ≤ T.VALUE_MATE_IN_MAX_PLY - 1 →
          evaluate T p = some t
            ∧ evaluate T q
                = some (t + (15 + T.PieceValue .ADVISOR + 12 + PST .ADVISOR (sq : Int)))) := by
  obtain ⟨hmat, hmob, hks, htac, hterm⟩ :=
    guard_presence_components T p q sq hsq hnone hone hrest hking hside hcheck
  have hqon : q.OnBoard := by
    intro c pt
    by_cases h : c = .WHITE ∧ pt = .ADVISOR
    · obtain ⟨rfl, rfl⟩ := h
      rw [hone]
      exact Nat.pow_lt_pow_right (by decide) hsq
    · rw [hrest c pt h]
      exact hon c pt
  have hsum : (pieceTypeLoop.map (pst_term q)).sum
      = (pieceTypeLoop.map (pst_term p)).sum + PST .ADVISOR (sq : Int) := by
    simp only [pieceTypeLoop, List.map_cons, List.map_nil, List.sum_cons, List.sum_nil, hterm]
    simp
    ring
  have h1 : red_total T p = some (0 + evaluate_material T p
      + (pieceTypeLoop.map (pst_term p)).sum + evaluate_mobility p
      + evaluate_king_safety p + evaluate_tactics p) := by
    simp only [red_total, evaluate_pst_eq p hon, Option.map_some']
  have h2 : red_total T q = some (0 + evaluate_material T p
      + (pieceTypeLoop.map (pst_term p)).sum + evaluate_mobility p
      + evaluate_king_safety p + evaluate_tactics p
      + (15 + T.PieceValue .ADVISOR + 12 + PST .ADVISOR (sq : Int))) := by
    simp only [red_total, evaluate_pst_eq q hqon, Option.map_some', hsum, hmat, hmob, hks,
      htac]
    congr 1
    ring
  generalize 0 + evaluate_material T p + (pieceTypeLoop.map (pst_term p)).sum
    + evaluate_mobility p + evaluate_king_safety p + evaluate_tactics p = t at h1 h2
  refine ⟨hks, t, h1, h2, ?_⟩
  intro hw h3 h4 h5 h6
  have hwq : q.side_to_move = .WHITE := by rw [hside]; exact hw
  constructor
  · simp only [evaluate, h1, Option.map_some', hw]
    rw [if_neg (by decide), std_clamp_inside _ _ _ h3 h4]
  · simp only [evaluate, h2, Option.map_some', hwq]
    rw [if_neg (by decide), std_clamp_inside _ _ _ h5 h6]

theorem guard_presence_difference_witness :
    evaluate_king_safety sample_position_one_advisor
        = evaluate_king_safety sample_position_no_advisor + 15
    ∧ ∃ t, red_total sample_types sample_position_no_advisor = some t
      ∧ red_total sample_types sample_position_one_advisor
          = some (t + (15 + sample_types.PieceValue .ADVISOR + 12
              + PST .ADVISOR ((84 : Nat) : Int)))
      ∧ (sample_position_no_advisor.side_to_move = .WHITE →
          sample_types.VALUE_MATED_IN_MAX_PLY + 1 ≤ t →
          t ≤ sample_types.VALUE_MATE_IN_MAX_PLY - 1 →
          sample_types.VALUE_MATED_IN_MAX_PLY + 1
            ≤ t + (15 + sample_types.PieceValue .ADVISOR + 12
                + PST .ADVISOR ((84 : Nat) : Int)) →
          t + (15 + sample_types.PieceValue .ADVISOR + 12
                + PST .ADVISOR ((84 : Nat) : Int))
            ≤ sample_types.VALUE_MATE_IN_MAX_PLY - 1 →
          evaluate sample_types sample_position_no_advisor = some t
            ∧ evaluate sample_types sample_position_one_advisor
                = some (t + (15 + sample_types.PieceValue .ADVISOR + 12
                    + PST .ADVISOR ((84 : Nat) : Int)))) :=
  guard_presence_difference sample_types sample_position_no_advisor
    sample_position_one_advisor 84 (by decide) (by decide) (by decide) (by decide)
    (by decide) (by decide) (by decide) (by decide)

/-! ## Reflection across the central file -/

set_option maxRecDepth 100000 in
theorem PST_reflect_file_nat :
    ∀ sq : Nat, sq < 90 → ∀ pt : PieceType,
      PST pt (reflect_file (sq : Int)) = PST pt (sq : Int) := by
  decide

theorem PST_reflect_file (pt : PieceType) (sq : Int) (h0 : 0 ≤ sq) (h90 : sq < 90) :
    PST pt (reflect_file sq) = PST pt sq := by
  have h := PST_reflect_file_nat sq.toNat (by omega) pt
  rwa [Int.toNat_of_nonneg h0] at h

theorem reflect_file_range (sq : Int) (h0 : 0 ≤ sq) (h90 : sq < 90) :
    0 ≤ reflect_file sq ∧ reflect_file sq < 90 := by
  unfold reflect_file
  omega

theorem reflect_file_tmod (sq : Int) (h0 : 0 ≤ sq) (h90 : sq < 90) :
    Int.tmod (reflect_file sq) 9 = 8 - Int.tmod sq 9
      ∧ Int.tdiv (reflect_file sq) 9 = Int.tdiv sq 9 := by
  have hr := reflect_file_range sq h0 h90
  rw [Int.tmod_eq_emod hr.1 (by decide), Int.tdiv_eq_ediv hr.1 (by decide),
    Int.tmod_eq_emod h0 (by decide), Int.tdiv_eq_ediv h0 (by decide)]
  unfold reflect_file
  omega

theorem mirror_square_reflect_file (sq : Int) (h0 : 0 ≤ sq) (h90 : sq < 90) :
    mirror_square (reflect_file sq) = reflect_file (mirror_square sq) := by
  have hr := reflect_file_range sq h0 h90
  have hm := mirror_square_range sq h0 h90
  rw [mirror_square_eq _ hr.1]
  unfold reflect_file
  rw [mirror_square_eq sq h0]
  omega

theorem IsFileReflection.reflected_popcount_eq {pos reflected : Position}
    (h : IsFileReflection pos reflected) (c : Color) (pt : PieceType) :
    popcount (reflected.pieces c pt) = popcount (pos.pieces c pt) := by
  have := (h.1 c pt).length_eq
  simp only [List.length_map] at this
  simp only [popcount, this]

theorem IsFileReflection.reflected_onBoard {pos reflected : Position}
    (h : IsFileReflection pos reflected) (hpos : pos.OnBoard) : reflected.OnBoard := by
  intro c pt
  apply lt_two_pow_of_squaresOf
  intro sq hsq
  have hmem : (sq : Int) ∈ (squaresOf (reflected.pieces c pt)).map
      (fun (sq : Nat) => (sq : Int)) := List.mem_map.2 ⟨sq, hsq, rfl⟩
  have hmem2 := (h.1 c pt).mem_iff.1 hmem
  obtain ⟨a, ha, hsa⟩ := List.mem_map.1 hmem2
  have hlt : a < 90 := squaresOf_lt 90 _ (hpos c pt) a ha
  have hr := reflect_file_range (a : Int) (by omega) (by omega)
  simp only [SQUARE_NB]
  omega

theorem IsFileReflection.pst_term_eq {pos reflected : Position}
    (h : IsFileReflection pos reflected) (hpos : pos.OnBoard) (pt : PieceType) :
    pst_term reflected pt = pst_term pos pt := by
  have hW : ((squaresOf (reflected.pieces .WHITE pt)).map
        (fun (sq : Nat) => PST pt (sq : Int))).sum
      = ((squaresOf (pos.pieces .WHITE pt)).map (fun (sq : Nat) => PST pt (sq : Int))).sum := by
    have hperm := (h.1 .WHITE pt).map (PST pt)
    simp only [List.map_map] at hperm
    rw [show (fun (sq : Nat) => PST pt (sq : Int))
        = PST pt ∘ (fun (sq : Nat) => (sq : Int)) from rfl, hperm.sum_eq]
    congr 1
    apply List.map_congr_left
    intro sq hsq
    have hlt : sq < 90 := squaresOf_lt 90 _ (hpos .WHITE pt) sq hsq
    exact PST_reflect_file pt (sq : Int) (by omega) (by omega)
  have hB : ((squaresOf (reflected.pieces .BLACK pt)).map
        (fun (sq : Nat) => PST pt (mirror_square (sq : Int)))).sum
      = ((squaresOf (pos.pieces .BLACK pt)).map
          (fun (sq : Nat) => PST pt (mirror_square (sq : Int)))).sum := by
    have hperm := (h.1 .BLACK pt).map (fun i => PST pt (mirror_square i))
    simp only [List.map_map] at hperm
    rw [show (fun (sq : Nat) => PST pt (mirror_square (sq : Int)))
        = (fun i => PST pt (mirror_square i)) ∘ (fun (sq : Nat) => (sq : Int)) from rfl,
      hperm.sum_eq]
    congr 1
    apply List.map_congr_left
    intro sq hsq
    have hlt : sq < 90 := squaresOf_lt 90 _ (hpos .BLACK pt) sq hsq
    have hm := mirror_square_range (sq : Int) (by omega) (by omega)
    show PST pt (mirror_square (reflect_file (sq : Int))) = PST pt (mirror_square (sq : Int))
    rw [mirror_square_reflect_file (sq : Int) (by omega) (by omega)]
    exact PST_reflect_file pt _ hm.1 hm.2
  simp only [pst_term, hW, hB]

theorem IsFileReflection.king_safety_eq {pos reflected : Position}
    (h : IsFileReflection pos reflected) (hk : pos.KingsOnBoard) :
    evaluate_king_safety reflected = evaluate_king_safety pos := by
  have hw := h.reflected_popcount_eq .WHITE .ADVISOR
  have hb := h.reflected_popcount_eq .BLACK .ADVISOR
  have kw := h.2.1 .WHITE
  have kb := h.2.1 .BLACK
  have hW := hk .WHITE
  have hB := hk .BLACK
  simp only [SQUARE_NB, Nat.cast_ofNat] at hW hB
  have mW := reflect_file_tmod _ hW.1 hW.2
  have mB := reflect_file_tmod _ hB.1 hB.2
  simp only [evaluate_king_safety, FILE_NB, FILE_E, kw, kb, hw, hb, mW.1, mW.2, mB.1, mB.2,
    std_abs]
  split_ifs <;> omega

/-- C18: every piece-square table has the same value on file `f` and on file `8 - f` of
each rank; and for a position with its occupied squares and king squares in `[0, 90)`,
the position with every piece and both kings reflected across the central file (same side
to move, same check status) gets the same score from `evaluate`. -/
theorem file_reflection_invariance :
    (∀ (pt : PieceType) (r f : Int), 0 ≤ r → r ≤ 9 → 0 ≤ f → f ≤ 8 →
      PST pt (r * 9 + f) = PST pt (r * 9 + (8 - f)))
    ∧ (∀ (T : Types) (pos reflected : Position), pos.OnBoard → pos.KingsOnBoard →
        IsFileReflection pos reflected →
        ∃ v, evaluate T pos = some v ∧ evaluate T reflected = some v) := by
  constructor
  · intro pt r f hr0 hr9 hf0 hf8
    have h := PST_reflect_file pt (r * 9 + f) (by omega) (by omega)
    have e : reflect_file (r * 9 + f) = r * 9 + (8 - f) := by
      unfold reflect_file
      omega
    rw [e] at h
    exact h.symm
  · intro T pos reflected hpos hk hrefl
    have hpst := evaluate_pst_eq pos hpos
    have hpst2 := evaluate_pst_eq reflected (hrefl.reflected_onBoard hpos)
    have hsum : (pieceTypeLoop.map (pst_term reflected)).sum
        = (pieceTypeLoop.map (pst_term pos)).sum := by
      simp only [pieceTypeLoop, List.map_cons, List.map_nil, hrefl.pst_term_eq hpos]
    have hmat : evaluate_material T reflected = evaluate_material T pos := by
      rw [evaluate_material_formula, evaluate_material_formula]
      simp only [hrefl.reflected_popcount_eq]
    have hmob : evaluate_mobility reflected = evaluate_mobility pos := by
      rw [evaluate_mobility_formula, evaluate_mobility_formula]
      simp only [hrefl.reflected_popcount_eq]
    have htac : evaluate_tactics reflected = evaluate_tactics pos := by
      rw [evaluate_tactics_formula, evaluate_tactics_formula, hrefl.2.2.1]
      by_cases hz : pos.checkers = 0
      · have hz2 : reflected.checkers = 0 := by
          by_contra hne
          exact (hrefl.2.2.2.1 hne) hz
        rw [if_pos hz, if_pos hz2]
      · rw [if_neg hz, if_neg (hrefl.2.2.2.2 hz)]
    have h1 : evaluate T pos = some (std_clamp
        (if pos.side_to_move = .BLACK then
          -(0 + evaluate_material T pos + (pieceTypeLoop.map (pst_term pos)).sum
            + evaluate_mobility pos + evaluate_king_safety pos + evaluate_tactics pos)
        else
          0 + evaluate_material T pos + (pieceTypeLoop.map (pst_term pos)).sum
            + evaluate_mobility pos + evaluate_king_safety pos + evaluate_tactics pos)
        (T.VALUE_MATED_IN_MAX_PLY + 1) (T.VALUE_MATE_IN_MAX_PLY - 1)) := by
      simp only [evaluate, red_total, hpst, Option.map_some']
    refine ⟨_, h1, ?_⟩
    simp only [evaluate, red_total, hpst2, Option.map_some', hsum, hmat, hmob, htac,
      hrefl.king_safety_eq hk, hrefl.2.2.1]

theorem file_reflection_invariance_witness :
    PST .KNIGHT (3 * 9 + 2) = PST .KNIGHT (3 * 9 + (8 - 2))
    ∧ ∃ v, evaluate sample_types sample_position_one_advisor = some v
        ∧ evaluate sample_types sample_position_reflected = some v :=
  ⟨file_reflection_invariance.1 .KNIGHT 3 2 (by decide) (by decide) (by decide)
      (by decide),
   file_reflection_invariance.2 sample_types sample_position_one_advisor
      sample_position_reflected (by decide) (by decide) (by decide)⟩

/-! ## The reflected position exists -/

theorem mem_squaresOf_reflect_bitboard (b n : Nat) :
    n ∈ squaresOf (reflect_bitboard b)
      ↔ ∃ sq ∈ squaresOf b, (reflect_file (sq : Int)).toNat = n := by
  rw [mem_squaresOf, reflect_bitboard,
    testBit_foldl_or (fun sq => (reflect_file (sq : Int)).toNat) n (squaresOf b) 0]
  simp

theorem reflect_bitboard_eq_zero (b : Nat) : reflect_bitboard b = 0 ↔ b = 0 := by
  constructor
  · intro h
    by_contra hb
    have hne := squaresOf_ne_nil b hb
    obtain ⟨sq, hsq⟩ := List.exists_mem_of_ne_nil _ hne
    have hmem := (mem_squaresOf_reflect_bitboard b _).2 ⟨sq, hsq, rfl⟩
    rw [h, squaresOf_zero] at hmem
    exact absurd hmem (List.not_mem_nil _)
  · intro h
    subst h
    simp [reflect_bitboard, squaresOf_zero]

theorem squaresOf_reflect_bitboard_perm (b : Nat) (hb : b < 2 ^ SQUARE_NB) :
    List.Perm ((squaresOf (reflect_bitboard b)).map (fun (sq : Nat) => (sq : Int)))
      ((squaresOf b).map (fun (sq : Nat) => reflect_file (sq : Int))) := by
  have hlt : ∀ sq ∈ squaresOf b, sq < 90 := squaresOf_lt 90 b hb
  have hnonneg : ∀ sq ∈ squaresOf b, 0 ≤ reflect_file (sq : Int) := fun sq hsq =>
    (reflect_file_range (sq : Int) (by omega) (by have := hlt sq hsq; omega)).1
  have d1 : ((squaresOf (reflect_bitboard b)).map (fun (sq : Nat) => (sq : Int))).Nodup :=
    (squaresOf_nodup _).map (fun x y h => by simpa using h)
  have d2 : ((squaresOf b).map (fun (sq : Nat) => reflect_file (sq : Int))).Nodup := by
    apply List.Nodup.map_on _ (squaresOf_nodup b)
    intro x hx y hy hxy
    have hx2 := hlt x hx
    have hy2 := hlt y hy
    unfold reflect_file at hxy
    omega
  rw [List.perm_ext_iff_of_nodup d1 d2]
  intro i
  simp only [List.mem_map, mem_squaresOf_reflect_bitboard]
  constructor
  · rintro ⟨n, ⟨sq, hsq, rfl⟩, rfl⟩
    exact ⟨sq, hsq, (Int.toNat_of_nonneg (hnonneg sq hsq)).symm⟩
  · rintro ⟨sq, hsq, rfl⟩
    exact ⟨_, ⟨sq, hsq, rfl⟩, Int.toNat_of_nonneg (hnonneg sq hsq)⟩

theorem isFileReflection_reflect_position (pos : Position) (hpos : pos.OnBoard) :
    IsFileReflection pos (reflect_position pos) := by
  refine ⟨?_, ?_, rfl, ?_⟩
  · intro c pt
    exact squaresOf_reflect_bitboard_perm _ (hpos c pt)
  · intro c
    rfl
  · show reflect_bitboard pos.checkers ≠ 0 ↔ pos.checkers ≠ 0
    rw [Ne, Ne, reflect_bitboard_eq_zero]

end HardCodeEval
